import Mathlib

/-!
# kube-s3-operator: the S3Bucket reconciler

A shallow embedding of `code/internal/controller/s3bucket_controller.go` and of the
API types in `api/v1alpha1/s3bucket_types.go`.

The reconciler is effectful: it talks to the Kubernetes object store (`r.Get`,
`r.Update`, `r.Status().Update`, `r.Create`, `r.Delete`) and to the S3 service
(`CreateBucket`, `WaitUntilBucketExists`, `DeleteBucket`, `WaitUntilBucketNotExists`).
Both are collaborators outside the repository.  They are modelled by

* a `World`: the stored object, the stored config maps and the trace of every call
  made so far, and
* an `Env`: an oracle that decides, for the call at each trace position, whether the
  collaborator fails (and with which error) or behaves normally.

Every Go method becomes a function `Env → World → ... → World × result`.
-/

namespace S3Operator

/-! ## API types (`s3bucket_types.go`) -/

def PENDING_STATE : String := "PENDING"
def CREATED_STATE : String := "CREATED"
def CREATING_STATE : String := "CREATING"
def DELETING_STATE : String := "DELETING"
def ERROR_STATE : String := "ERROR"

/-- Desired state of an S3Bucket. -/
structure S3BucketSpec where
  Name : String
  Region : String
  Locked : Bool
deriving DecidableEq, Repr

/-- Observed state of an S3Bucket. -/
structure S3BucketStatus where
  State : String
deriving DecidableEq, Repr

/-- The S3Bucket object: the parts of `metav1.ObjectMeta` the controller reads or
writes (name, namespace, finalizers, deletion timestamp, resource version), the spec
and the status.  `DeletionTimestamp = none` is the zero timestamp. -/
structure S3Bucket where
  Name : String
  Namespace : String
  Finalizers : List String
  DeletionTimestamp : Option Nat
  ResourceVersion : Nat
  Spec : S3BucketSpec
  Status : S3BucketStatus
deriving DecidableEq, Repr

/-- The config map published for a bucket: name, namespace, name of the owning
S3Bucket (the controller reference) and the data map as a key-value list. -/
structure ConfigMap where
  Name : String
  Namespace : String
  Owner : String
  Data : List (String × String)
deriving DecidableEq, Repr

/-! ## Controller constants (`s3bucket_controller.go`, lines 39-42) -/

/-- The constant `configMapName = "%s-s3-cm"` applied with `fmt.Sprintf` to one string
argument. -/
def configMapName (name : String) : String := name ++ "-s3-cm"

def s3BucketFinalizer : String := "s3bucket.s3.acme.io/finalizer"

/-- The AWS SDK constant `s3.ErrCodeNoSuchBucket`. -/
def ErrCodeNoSuchBucket : String := "NoSuchBucket"

/-! ## Errors -/

/-- Go `error` values seen by the controller.  `aws code` is an `awserr.Error` with
that code, `wrap msg e` is `fmt.Errorf(msg + ": %w", e)`; the other constructors are the
API-server status errors and an arbitrary other failure. -/
inductive Err where
  | notFound : Err
  | conflict : Err
  | alreadyExists : Err
  | aws (code : String) : Err
  | other (msg : String) : Err
  | wrap (msg : String) (inner : Err) : Err
deriving DecidableEq, Repr

/-- The predicate `apierrors.IsConflict`; it looks through wrapping. -/
def Err.isConflict : Err → Bool
  | .conflict => true
  | .wrap _ e => e.isConflict
  | _ => false

/-! ## Collaborator calls and the world -/

/-- One collaborator call (or one entry into a status write) with its outcome;
`none` is success. -/
inductive Event where
  /-- Entry into `updateBucketStatus` for the given state. -/
  | setState (state : String) : Event
  /-- Call `r.Get` for the S3Bucket with the given key. -/
  | get (ns name : String) (res : Option Err) : Event
  /-- Call `r.Status().Update` with the given object. -/
  | statusUpdate (obj : S3Bucket) (res : Option Err) : Event
  /-- Call `r.Update` with the given object. -/
  | update (obj : S3Bucket) (res : Option Err) : Event
  | createBucket (bucket : String) (locked : Bool) (res : Option Err) : Event
  | waitUntilBucketExists (bucket : String) (res : Option Err) : Event
  | deleteBucket (bucket : String) (res : Option Err) : Event
  | waitUntilBucketNotExists (bucket : String) (res : Option Err) : Event
  /-- Call `r.Create` with the given config map. -/
  | cmCreate (cm : ConfigMap) (res : Option Err) : Event
  /-- Call `r.Get` for the config map with the given key. -/
  | cmGet (ns name : String) (res : Option Err) : Event
  /-- Call `r.Delete` with the given config map. -/
  | cmDelete (cm : ConfigMap) (res : Option Err) : Event
deriving DecidableEq, Repr

/-- The collaborators' state: the object stored under the reconciled key (if any),
the stored config maps, and the trace of calls so far (oldest first). -/
structure World where
  obj : Option S3Bucket
  cms : List ConfigMap
  trace : List Event
deriving DecidableEq, Repr

/-- The oracle: `fault n` is the failure (if any) of the collaborator call made when
the trace has length `n` (entry events of status writes are in the trace and count);
`location n` is the `Location` field of the output of a successful `CreateBucket` made
at that position (`none` is a nil pointer). -/
structure Env where
  fault : Nat → Option Err
  location : Nat → Option String

/-- Append an event to the trace. -/
def World.log (w : World) (e : Event) : World :=
  { w with trace := w.trace ++ [e] }

/-- `controllerutil.ContainsFinalizer`. -/
def ContainsFinalizer (o : S3Bucket) (f : String) : Bool :=
  o.Finalizers.contains f

/-- `controllerutil.AddFinalizer`: append unless already present. -/
def AddFinalizer (o : S3Bucket) (f : String) : S3Bucket :=
  if o.Finalizers.contains f then o else { o with Finalizers := o.Finalizers ++ [f] }

/-- `controllerutil.RemoveFinalizer`: drop every occurrence. -/
def RemoveFinalizer (o : S3Bucket) (f : String) : S3Bucket :=
  { o with Finalizers := o.Finalizers.filter (fun x => x != f) }

/-! ### The object store -/

/-- `r.Get` for an S3Bucket: an injected fault, else not-found when nothing is stored
under that key, else the stored object. -/
def storeGet (env : Env) (w : World) (ns name : String) : World × Except Err S3Bucket :=
  match env.fault w.trace.length with
  | some e => (w.log (.get ns name (some e)), .error e)
  | none =>
    match w.obj with
    | some o =>
      if o.Namespace = ns ∧ o.Name = name then (w.log (.get ns name none), .ok o)
      else (w.log (.get ns name (some .notFound)), .error .notFound)
    | none => (w.log (.get ns name (some .notFound)), .error .notFound)

/-- `r.Status().Update`: an injected fault, else not-found, else a conflict when the
version token is stale, else only the status of the stored object is replaced (the
status subresource) and the version moves on. -/
def storeStatusUpdate (env : Env) (w : World) (o : S3Bucket) : World × Option Err :=
  match env.fault w.trace.length with
  | some e => (w.log (.statusUpdate o (some e)), some e)
  | none =>
    match w.obj with
    | some cur =>
      if cur.Namespace = o.Namespace ∧ cur.Name = o.Name then
        if cur.ResourceVersion = o.ResourceVersion then
          ({ w with obj := some { cur with Status := o.Status,
                                           ResourceVersion := cur.ResourceVersion + 1 } }.log
              (.statusUpdate o none), none)
        else (w.log (.statusUpdate o (some .conflict)), some .conflict)
      else (w.log (.statusUpdate o (some .notFound)), some .notFound)
    | none => (w.log (.statusUpdate o (some .notFound)), some .notFound)

/-- Whether the store removes the object once it is written: a deletion-requested
object whose finalizer set is empty is physically removed (sections 3 and 4.5 of the
specification: the finalizer is the only thing that keeps a deletion-requested object
in the store). -/
def S3Bucket.isReleased (o : S3Bucket) : Bool :=
  o.DeletionTimestamp.isSome && o.Finalizers.isEmpty

/-- `r.Update`: an injected fault, else not-found, else a conflict when the version
token is stale, else the write is accepted: metadata and spec of the stored object are
replaced (the status is kept: it is a subresource) and the version moves on, unless
the written object is deletion-requested with no finalizer left, in which case the
store removes it. -/
def storeUpdate (env : Env) (w : World) (o : S3Bucket) : World × Option Err :=
  match env.fault w.trace.length with
  | some e => (w.log (.update o (some e)), some e)
  | none =>
    match w.obj with
    | some cur =>
      if cur.Namespace = o.Namespace ∧ cur.Name = o.Name then
        if cur.ResourceVersion = o.ResourceVersion then
          if o.isReleased then
            ({ w with obj := none }.log (.update o none), none)
          else
            ({ w with obj := some { o with Status := cur.Status,
                                           ResourceVersion := cur.ResourceVersion + 1 } }.log
                (.update o none), none)
        else (w.log (.update o (some .conflict)), some .conflict)
      else (w.log (.update o (some .notFound)), some .notFound)
    | none => (w.log (.update o (some .notFound)), some .notFound)

/-- Whether a config map has the given key. -/
def ConfigMap.hasKey (c : ConfigMap) (ns name : String) : Bool :=
  c.Namespace == ns && c.Name == name

/-- `r.Create` for a config map: an injected fault, else already-exists, else stored. -/
def storeCmCreate (env : Env) (w : World) (cm : ConfigMap) : World × Option Err :=
  match env.fault w.trace.length with
  | some e => (w.log (.cmCreate cm (some e)), some e)
  | none =>
    if w.cms.any (fun c => c.hasKey cm.Namespace cm.Name) then
      (w.log (.cmCreate cm (some .alreadyExists)), some .alreadyExists)
    else ({ w with cms := w.cms ++ [cm] }.log (.cmCreate cm none), none)

/-- `r.Get` for a config map. -/
def storeCmGet (env : Env) (w : World) (ns name : String) : World × Except Err ConfigMap :=
  match env.fault w.trace.length with
  | some e => (w.log (.cmGet ns name (some e)), .error e)
  | none =>
    match w.cms.find? (fun c => c.hasKey ns name) with
    | some c => (w.log (.cmGet ns name none), .ok c)
    | none => (w.log (.cmGet ns name (some .notFound)), .error .notFound)

/-- `r.Delete` for a config map. -/
def storeCmDelete (env : Env) (w : World) (cm : ConfigMap) : World × Option Err :=
  match env.fault w.trace.length with
  | some e => (w.log (.cmDelete cm (some e)), some e)
  | none =>
    if w.cms.any (fun c => c.hasKey cm.Namespace cm.Name) then
      ({ w with cms := w.cms.filter (fun c => !c.hasKey cm.Namespace cm.Name) }.log
          (.cmDelete cm none), none)
    else (w.log (.cmDelete cm (some .notFound)), some .notFound)

/-! ### The S3 service -/

/-- `S3svc.CreateBucket`: the oracle's failure or the output's `Location`. -/
def s3CreateBucket (env : Env) (w : World) (bucket : String) (locked : Bool) :
    World × Except Err (Option String) :=
  match env.fault w.trace.length with
  | some e => (w.log (.createBucket bucket locked (some e)), .error e)
  | none => (w.log (.createBucket bucket locked none), .ok (env.location w.trace.length))

def s3WaitUntilBucketExists (env : Env) (w : World) (bucket : String) : World × Option Err :=
  (w.log (.waitUntilBucketExists bucket (env.fault w.trace.length)), env.fault w.trace.length)

def s3DeleteBucket (env : Env) (w : World) (bucket : String) : World × Option Err :=
  (w.log (.deleteBucket bucket (env.fault w.trace.length)), env.fault w.trace.length)

def s3WaitUntilBucketNotExists (env : Env) (w : World) (bucket : String) : World × Option Err :=
  (w.log (.waitUntilBucketNotExists bucket (env.fault w.trace.length)),
    env.fault w.trace.length)

/-! ### `retry.RetryOnConflict` -/

/-- The step count of `retry.DefaultBackoff`. -/
def defaultBackoffSteps : Nat := 4

/-- `retry.RetryOnConflict` with a backoff of `steps` steps: run `fn`; on success or
on an error that is not a conflict return it; on a conflict run again while steps
remain, and return the last conflict when they are used up.  With no step at all the
wait times out at once and the last error, which is nil, is returned. -/
def RetryOnConflict (steps : Nat) (fn : World → World × Option Err) (w : World) :
    World × Option Err :=
  match steps with
  | 0 => (w, none)
  | 1 => fn w
  | n + 1 =>
    match fn w with
    | (w1, none) => (w1, none)
    | (w1, some e) => if e.isConflict then RetryOnConflict n fn w1 else (w1, some e)

/-! ## The controller (`s3bucket_controller.go`) -/

/-- The value `ctrl.Result`; `RequeueAfter` is a `time.Duration` in nanoseconds. -/
structure Result where
  Requeue : Bool
  RequeueAfter : Nat
deriving DecidableEq, Repr

/-- The empty result `ctrl.Result{}`. -/
def Result.empty : Result := { Requeue := false, RequeueAfter := 0 }

/-- The duration `time.Second`, in nanoseconds. -/
def Second : Nat := 1000000000

/-- The duration `time.Minute`, in nanoseconds. -/
def Minute : Nat := 60 * Second

/-- One attempt of the closure in `updateBucketStatus` (lines 188-199). -/
def statusAttempt (env : Env) (s3bkt : S3Bucket) (state : String) (w0 : World) :
    World × Option Err :=
  match storeGet env w0 s3bkt.Namespace s3bkt.Name with
  | (w1, .error e) => (w1, some e)
  | (w1, .ok latest) =>
    storeStatusUpdate env w1 { latest with Status := { latest.Status with State := state } }

/-- Lines 185-201: under `RetryOnConflict`, fetch the latest version by the key of
`s3bkt`, set its `Status.State` and write it with `r.Status().Update`. -/
def updateBucketStatus (env : Env) (w : World) (s3bkt : S3Bucket) (state : String) :
    World × Option Err :=
  RetryOnConflict defaultBackoffSteps (statusAttempt env s3bkt state) (w.log (.setState state))

/-- Lines 203-217. -/
def createS3Bucket (env : Env) (w : World) (s3bkt : S3Bucket) :
    World × Except Err (Option String) :=
  match s3CreateBucket env w s3bkt.Spec.Name s3bkt.Spec.Locked with
  | (w1, .error e) => (w1, .error (.wrap "S3 CreateBucket API call failed" e))
  | (w1, .ok output) => (w1, .ok output)

/-- Lines 219-232. -/
def waitForBucketReady (env : Env) (w : World) (s3bkt : S3Bucket) : World × Option Err :=
  match s3WaitUntilBucketExists env w s3bkt.Spec.Name with
  | (w1, some e) => (w1, some (.wrap "bucket did not become ready" e))
  | (w1, none) => (w1, none)

/-- The config map built at lines 239-255; `location` is `bucketOutput.Location` and
`aws.StringValue` turns a nil pointer into the empty string. -/
def bucketConfigMap (s3bkt : S3Bucket) (location : Option String) : ConfigMap :=
  { Name := configMapName s3bkt.Name
    Namespace := s3bkt.Namespace
    Owner := s3bkt.Name
    Data := [("BucketName", s3bkt.Spec.Name),
             ("Region", s3bkt.Spec.Region),
             ("Locked", if s3bkt.Spec.Locked then "true" else "false"),
             ("location", location.getD "")] }

/-- Lines 234-262. -/
def createBucketConfigMap (env : Env) (w : World) (s3bkt : S3Bucket)
    (bucketOutput : Option String) : World × Option Err :=
  match storeCmCreate env w (bucketConfigMap s3bkt bucketOutput) with
  | (w1, some e) => (w1, some (.wrap "failed to create ConfigMap" e))
  | (w1, none) => (w1, none)

/-- Lines 147-183. -/
def CreateResource (env : Env) (w : World) (s3bkt : S3Bucket) : World × Option Err :=
  match updateBucketStatus env w s3bkt CREATING_STATE with
  | (w1, some e) => (w1, some (.wrap "failed to update status to CREATING" e))
  | (w1, none) =>
    match createS3Bucket env w1 s3bkt with
    | (w2, .error e) =>
      ((updateBucketStatus env w2 s3bkt ERROR_STATE).1,
        some (.wrap "failed to create S3 bucket" e))
    | (w2, .ok bucketOutput) =>
      match waitForBucketReady env w2 s3bkt with
      | (w3, some e) =>
        ((updateBucketStatus env w3 s3bkt ERROR_STATE).1,
          some (.wrap "bucket creation timeout" e))
      | (w3, none) =>
        match createBucketConfigMap env w3 s3bkt bucketOutput with
        | (w4, some e) =>
          ((updateBucketStatus env w4 s3bkt ERROR_STATE).1,
            some (.wrap "failed to create ConfigMap" e))
        | (w4, none) =>
          match updateBucketStatus env w4 s3bkt CREATED_STATE with
          | (w5, some e) => (w5, some (.wrap "failed to update status to CREATED" e))
          | (w5, none) => (w5, none)

/-- Lines 361-384: the `awserr.Error` type assertion succeeds exactly on `Err.aws`. -/
def deleteS3Bucket (env : Env) (w : World) (s3bkt : S3Bucket) : World × Option Err :=
  match s3DeleteBucket env w s3bkt.Spec.Name with
  | (w1, none) => (w1, none)
  | (w1, some (.aws code)) =>
    if code = ErrCodeNoSuchBucket then (w1, none)
    else if code = "BucketNotEmpty" then
      (w1, some (.wrap "bucket is not empty, cannot delete" (.aws code)))
    else (w1, some (.wrap "S3 DeleteBucket API call failed" (.aws code)))
  | (w1, some e) => (w1, some (.wrap "S3 DeleteBucket API call failed" e))

/-- Lines 386-399. -/
def waitForBucketDeleted (env : Env) (w : World) (s3bkt : S3Bucket) : World × Option Err :=
  match s3WaitUntilBucketNotExists env w s3bkt.Spec.Name with
  | (w1, some e) => (w1, some (.wrap "bucket deletion did not complete" e))
  | (w1, none) => (w1, none)

/-- Lines 401-424: every path returns nil. -/
def deleteBucketConfigMap (env : Env) (w : World) (s3bkt : S3Bucket) : World × Option Err :=
  match storeCmGet env w s3bkt.Namespace (configMapName s3bkt.Name) with
  | (w1, .error _) => (w1, none)
  | (w1, .ok cm) =>
    match storeCmDelete env w1 cm with
    | (w2, some _) => (w2, none)
    | (w2, none) => (w2, none)

/-- Lines 296-317. -/
def performCleanup (env : Env) (w : World) (s3bkt : S3Bucket) : World × Option Err :=
  match deleteS3Bucket env w s3bkt with
  | (w1, some e) => (w1, some (.wrap "failed to delete S3 bucket" e))
  | (w1, none) =>
    match waitForBucketDeleted env w1 s3bkt with
    | (w2, some e) => (w2, some (.wrap "bucket deletion timeout" e))
    | (w2, none) => ((deleteBucketConfigMap env w2 s3bkt).1, none)

/-- One attempt of the closure in `removeFinalizer` (lines 322-335). -/
def removeAttempt (env : Env) (s3bkt : S3Bucket) (w0 : World) : World × Option Err :=
  match storeGet env w0 s3bkt.Namespace s3bkt.Name with
  | (w1, .error e) => (w1, some e)
  | (w1, .ok latest) => storeUpdate env w1 (RemoveFinalizer latest s3BucketFinalizer)

/-- Lines 319-337. -/
def removeFinalizer (env : Env) (w : World) (s3bkt : S3Bucket) : World × Option Err :=
  RetryOnConflict defaultBackoffSteps (removeAttempt env s3bkt) w

/-- One attempt of the closure in `addFinalizer` (lines 342-357). -/
def addAttempt (env : Env) (s3bkt : S3Bucket) (w0 : World) : World × Option Err :=
  match storeGet env w0 s3bkt.Namespace s3bkt.Name with
  | (w1, .error e) => (w1, some e)
  | (w1, .ok latest) =>
    if !ContainsFinalizer latest s3BucketFinalizer then
      storeUpdate env w1 (AddFinalizer latest s3BucketFinalizer)
    else (w1, none)

/-- Lines 339-359. -/
def addFinalizer (env : Env) (w : World) (s3bkt : S3Bucket) : World × Option Err :=
  RetryOnConflict defaultBackoffSteps (addAttempt env s3bkt) w

/-- Lines 264-294. -/
def DeleteResource (env : Env) (w : World) (s3bkt : S3Bucket) : World × Option Err :=
  if !ContainsFinalizer s3bkt s3BucketFinalizer then (w, none)
  else
    match performCleanup env (updateBucketStatus env w s3bkt DELETING_STATE).1 s3bkt with
    | (w2, some e) =>
      ((updateBucketStatus env w2 s3bkt ERROR_STATE).1, some (.wrap "cleanup failed" e))
    | (w2, none) =>
      match removeFinalizer env w2 s3bkt with
      | (w3, some e) => (w3, some (.wrap "failed to remove finalizer" e))
      | (w3, none) => (w3, none)

/-- The `switch` on `s3bkt.Status.State` at lines 106-136. -/
def dispatch (env : Env) (w : World) (s3bkt : S3Bucket) : World × Result × Option Err :=
  if s3bkt.Status.State = "" then
    match CreateResource env w s3bkt with
    | (w1, some e) => (w1, Result.empty, some e)
    | (w1, none) => (w1, Result.empty, none)
  else if s3bkt.Status.State = CREATED_STATE then (w, Result.empty, none)
  else if s3bkt.Status.State = ERROR_STATE then
    (w, { Requeue := false, RequeueAfter := Minute * 5 }, none)
  else if s3bkt.Status.State = CREATING_STATE ∨ s3bkt.Status.State = DELETING_STATE then
    (w, { Requeue := false, RequeueAfter := Second * 30 }, none)
  else (w, Result.empty, none)

/-- Lines 66-137: `ns`, `name` are the request's `NamespacedName`. -/
def Reconcile (env : Env) (w : World) (ns name : String) : World × Result × Option Err :=
  match storeGet env w ns name with
  | (w1, .error _) => (w1, Result.empty, none)
  | (w1, .ok s3bkt) =>
    if s3bkt.DeletionTimestamp.isSome then
      if ContainsFinalizer s3bkt s3BucketFinalizer then
        match DeleteResource env w1 s3bkt with
        | (w2, some e) => (w2, Result.empty, some e)
        | (w2, none) => (w2, Result.empty, none)
      else (w1, Result.empty, none)
    else if !ContainsFinalizer s3bkt s3BucketFinalizer then
      match addFinalizer env w1 s3bkt with
      | (w2, some e) => (w2, Result.empty, some e)
      | (w2, none) => (w2, { Requeue := true, RequeueAfter := 0 }, none)
    else dispatch env w1 s3bkt

/-! ## Concrete objects used in examples -/

/-- The object of the specification's scenarios, freshly created. -/
def logArchive : S3Bucket :=
  { Name := "log-archive", Namespace := "default", Finalizers := [],
    DeletionTimestamp := none, ResourceVersion := 1,
    Spec := { Name := "log-archive", Region := "us-east-1", Locked := false },
    Status := { State := "" } }

/-- The same object once created, carrying the finalizer. -/
def logArchiveCreated : S3Bucket :=
  { logArchive with Finalizers := [s3BucketFinalizer], ResourceVersion := 4,
                    Status := { State := CREATED_STATE } }

/-- The created object after a deletion request. -/
def logArchiveDeleting : S3Bucket :=
  { logArchiveCreated with DeletionTimestamp := some 1, ResourceVersion := 5 }

/-- The object carrying the finalizer, with its state set to PENDING. -/
def logArchivePending : S3Bucket :=
  { logArchive with Finalizers := [s3BucketFinalizer], ResourceVersion := 2,
                    Status := { State := PENDING_STATE } }

/-- An object whose own name differs from the name of its bucket. -/
def renamedArchive : S3Bucket :=
  { logArchive with Name := "obj1" }

/-- A world holding one object and nothing else. -/
def worldOf (o : S3Bucket) : World := { obj := some o, cms := [], trace := [] }

/-- The oracle under which no collaborator call fails. -/
def noFault : Env := { fault := fun _ => none, location := fun _ => some "/log-archive" }

/-- The oracle whose only failure is `e`, at trace position `n`. -/
def faultAt (n : Nat) (e : Err) : Env :=
  { fault := fun k => if k = n then some e else none, location := fun _ => some "/log-archive" }

/-! ## Vocabulary for statements about traces -/

/-- The world `w1` is `w` with further events, each of which satisfies `K`. -/
def Emits (K : Event → Prop) (w w1 : World) : Prop :=
  ∃ evs, w1.trace = w.trace ++ evs ∧ ∀ e ∈ evs, K e

/-- The finalizer set of the stored object (`none` when nothing is stored). -/
def World.finalizers (w : World) : Option (List String) :=
  w.obj.map (fun o => o.Finalizers)

/-- The `status.state` of the stored object (`none` when nothing is stored). -/
def World.state (w : World) : Option String :=
  w.obj.map (fun o => o.Status.State)

/-- A call to `r.Update`: the only call that writes the finalizer set. -/
def Event.isUpdate : Event → Bool
  | .update _ _ => true
  | _ => false

/-- A call of `r.Status().Update`. -/
def Event.isStatusUpdate : Event → Bool
  | .statusUpdate _ _ => true
  | _ => false

/-- A call to the S3 service. -/
def Event.isBucketCall : Event → Bool
  | .createBucket _ _ _ => true
  | .waitUntilBucketExists _ _ => true
  | .deleteBucket _ _ => true
  | .waitUntilBucketNotExists _ _ => true
  | _ => false

/-- A call that reads or writes the metadata artifact (the config map). -/
def Event.isArtifactCall : Event → Bool
  | .cmCreate _ _ => true
  | .cmGet _ _ _ => true
  | .cmDelete _ _ => true
  | _ => false

/-- What a status write emits after its entry event: fetches of the object and
`r.Status().Update` calls that only carry the state `st`. -/
def Event.isStatusIO (st : String) : Event → Bool
  | .get _ _ _ => true
  | .statusUpdate o _ => o.Status.State == st
  | _ => false

/-- A fetch of the object or a call of `r.Update`: what the finalizer manager emits. -/
def Event.isFinalizerIO : Event → Bool
  | .get _ _ _ => true
  | .update _ _ => true
  | _ => false

/-- A successful call of `r.Update`. -/
def Event.isUpdateOk : Event → Bool
  | .update _ none => true
  | _ => false

/-- The outcome of `S3svc.DeleteBucket` that `deleteS3Bucket` takes for a deleted
bucket: success, or the `NoSuchBucket` error code. -/
def deleteOk : Option Err → Bool
  | none => true
  | some (.aws code) => code == ErrCodeNoSuchBucket
  | some _ => false

/-- A successful `r.Status().Update` that carries the state `st`. -/
def Event.isWritten (st : String) : Event → Bool
  | .statusUpdate o none => o.Status.State == st
  | _ => false

/-- A call of `S3svc.CreateBucket`. -/
def Event.isCreateBucket : Event → Bool
  | .createBucket _ _ _ => true
  | _ => false

/-- The steps of the creation workflow, as the specification counts them: a status
write (whatever the number of attempts inside it), the three collaborator calls. -/
inductive Step where
  | statusWrite (state : String) : Step
  | createBucket : Step
  | waitUntilExists : Step
  | createArtifact : Step
deriving DecidableEq, Repr

/-- The step an event starts, if any; the fetches and `Status().Update` calls inside a
status write start none. -/
def Event.step? : Event → Option Step
  | .setState st => some (.statusWrite st)
  | .createBucket _ _ _ => some .createBucket
  | .waitUntilBucketExists _ _ => some .waitUntilExists
  | .cmCreate _ _ => some .createArtifact
  | _ => none

/-- The sequence of steps in a list of events. -/
def steps (evs : List Event) : List Step := evs.filterMap Event.step?

/-- The step order of section 4.4 of the specification. -/
def creationOrder : List Step :=
  [.statusWrite CREATING_STATE, .createBucket, .waitUntilExists, .createArtifact,
   .statusWrite CREATED_STATE]

/-- The step-order property of one creation pass from `w` that ended in the world and
error `res`: the steps are a leading part of `creationOrder`, possibly followed by an
ERROR status write; every event that starts no step is a fetch or `Status().Update`
of a status write; a create-bucket call has a successful CREATING status update before
it; a successful CREATED status update has a successful create, wait and config map
creation before it and the pass then returns no error; a pass without error went
through all of `creationOrder`. -/
def StepOrder (w : World) (res : World × Option Err) : Prop :=
  ∃ evs, res.1.trace = w.trace ++ evs ∧
    (∃ k, steps evs = creationOrder.take k ∨
          steps evs = creationOrder.take k ++ [.statusWrite ERROR_STATE]) ∧
    (∀ x ∈ evs, x.step? = none → ∃ st, x.isStatusIO st = true) ∧
    (∀ pre x post, evs = pre ++ x :: post → x.isCreateBucket = true →
      ∃ y ∈ pre, y.isWritten CREATING_STATE = true) ∧
    (∀ pre x post, evs = pre ++ x :: post → x.isWritten CREATED_STATE = true →
      (∃ b l, Event.createBucket b l none ∈ pre) ∧
      (∃ b, Event.waitUntilBucketExists b none ∈ pre) ∧
      (∃ cm, Event.cmCreate cm none ∈ pre) ∧
      res.2 = none) ∧
    (res.2 = none → steps evs = creationOrder)

/-- The world `w1` is `w` with further events of kind `K`, the same stored finalizer set
and the same config maps. -/
def Frame (K : Event → Prop) (w w1 : World) : Prop :=
  Emits K w w1 ∧ w1.finalizers = w.finalizers ∧ w1.cms = w.cms

/-- The finalizer guard of one deletion pass from `w` that ended in the world and
error `res`: every `r.Update` call, successful or not, carries an object without the
finalizer and has before it a bucket delete that succeeded or reported no such
bucket, a successful wait for the bucket to be gone and a config map lookup; and the
stored finalizer set is unchanged unless an `r.Update` succeeded. -/
def FinalizerGuard (w : World) (res : World × Option Err) : Prop :=
  ∃ evs, res.1.trace = w.trace ++ evs ∧
    (∀ pre x post, evs = pre ++ x :: post → x.isUpdate = true →
      (∃ b r, Event.deleteBucket b r ∈ pre ∧
        (r = none ∨ r = some (.aws ErrCodeNoSuchBucket))) ∧
      (∃ b, Event.waitUntilBucketNotExists b none ∈ pre) ∧
      (∃ ns n r, Event.cmGet ns n r ∈ pre) ∧
      (∀ o r, x = .update o r → ContainsFinalizer o s3BucketFinalizer = false)) ∧
    ((∀ x ∈ evs, x.isUpdateOk = false) → res.1.finalizers = w.finalizers)

/-- The world `b` is `a` with further events of kind `K`, the same config maps, and the
same stored finalizer set unless an `r.Update` succeeded. -/
def Guarded (K : Event → Prop) (a b : World) : Prop :=
  ∃ evs, b.trace = a.trace ++ evs ∧ (∀ x ∈ evs, K x) ∧ b.cms = a.cms ∧
    ((∀ x ∈ evs, x.isUpdateOk = false) → b.finalizers = a.finalizers)

/-- What `removeFinalizer` may emit: fetches, and updates with an object that does not
carry the finalizer. -/
def Event.isRemoveIO : Event → Bool
  | .get _ _ _ => true
  | .update o _ => !ContainsFinalizer o s3BucketFinalizer
  | _ => false

/-- What `addFinalizer` may emit: fetches, and updates with an object that carries the
finalizer. -/
def Event.isAddIO : Event → Bool
  | .get _ _ _ => true
  | .update o _ => ContainsFinalizer o s3BucketFinalizer
  | _ => false

/-! ## Lemmas on lists of events -/

theorem emits_refl (K : Event → Prop) (w : World) : Emits K w w :=
  ⟨[], by simp, by simp⟩

theorem emits_trans {K : Event → Prop} {w w1 w2 : World}
    (h1 : Emits K w w1) (h2 : Emits K w1 w2) : Emits K w w2 := by
  obtain ⟨e1, t1, k1⟩ := h1
  obtain ⟨e2, t2, k2⟩ := h2
  refine ⟨e1 ++ e2, by rw [t2, t1, List.append_assoc], ?_⟩
  intro e he
  rcases List.mem_append.mp he with h | h
  · exact k1 e h
  · exact k2 e h

theorem emits_mono {K L : Event → Prop} {w w1 : World} (hKL : ∀ e, K e → L e)
    (h : Emits K w w1) : Emits L w w1 := by
  obtain ⟨e1, t1, k1⟩ := h
  exact ⟨e1, t1, fun e he => hKL e (k1 e he)⟩

theorem emits_one {K : Event → Prop} {w w1 : World} {e : Event}
    (ht : w1.trace = w.trace ++ [e]) (hk : K e) : Emits K w w1 :=
  ⟨[e], ht, by simpa using hk⟩

/-- An event of kind `K` cannot sit inside a `K`-free first part of a list. -/
theorem split_after (K : Event → Prop) :
    ∀ (l1 l2 pre : List Event) (e : Event) (post : List Event),
      (∀ x ∈ l1, ¬ K x) → K e → l1 ++ l2 = pre ++ e :: post →
      ∃ mid, pre = l1 ++ mid ∧ l2 = mid ++ e :: post := by
  intro l1
  induction l1 with
  | nil => intro l2 pre e post _ _ h; exact ⟨pre, by simp, by simpa using h⟩
  | cons a t ih =>
    intro l2 pre e post hfree hK h
    cases pre with
    | nil =>
      simp only [List.nil_append, List.cons_append, List.cons.injEq] at h
      exact absurd (h.1 ▸ hK) (hfree a (by simp))
    | cons b pt =>
      simp only [List.cons_append, List.cons.injEq] at h
      obtain ⟨mid, hm1, hm2⟩ :=
        ih l2 pt e post (fun x hx => hfree x (by simp [hx])) hK h.2
      exact ⟨mid, by simp [h.1, hm1], hm2⟩

/-! ## `RetryOnConflict` -/

/-- Anything preserved by each attempt, reflexively and transitively, is preserved
by the retry loop. -/
theorem retry_preserves (R : World → World → Prop) (hrefl : ∀ w, R w w)
    (htrans : ∀ a b c, R a b → R b c → R a c)
    (fn : World → World × Option Err) (hfn : ∀ w, R w (fn w).1) :
    ∀ (n : Nat) (w : World), R w (RetryOnConflict n fn w).1 := by
  intro n
  induction n with
  | zero => intro w; simpa [RetryOnConflict] using hrefl w
  | succ k ih =>
    intro w
    cases k with
    | zero => simpa [RetryOnConflict] using hfn w
    | succ m =>
      rw [RetryOnConflict]
      · have h1 := hfn w
        rcases hf : fn w with ⟨w1, _ | e⟩
        · simpa [hf] using h1
        · simp only
          rw [hf] at h1
          split
          · exact htrans _ _ _ h1 (ih w1)
          · exact h1
      · simp

/-- A successful retry loop with at least one step ends in a successful attempt. -/
theorem retry_success (fn : World → World × Option Err) :
    ∀ (n : Nat) (w : World), (RetryOnConflict (n + 1) fn w).2 = none →
      ∃ w0, fn w0 = ((RetryOnConflict (n + 1) fn w).1, none) := by
  intro n
  induction n with
  | zero =>
    intro w h
    refine ⟨w, ?_⟩
    simp only [RetryOnConflict] at h ⊢
    exact Prod.ext rfl h
  | succ m ih =>
    intro w
    rw [RetryOnConflict]
    · rcases hf : fn w with ⟨w1, _ | e⟩
      · intro _; exact ⟨w, by simp [hf]⟩
      · simp only
        split
        · exact ih w1
        · intro h; simp at h
    · simp

/-- Events of the retry loop: when every attempt emits events of kind `K` and emits
an event of kind `Q` only if it succeeds, so does the loop. -/
theorem retry_events (K Q : Event → Prop) (fn : World → World × Option Err)
    (hfn : ∀ w, ∃ evs, (fn w).1.trace = w.trace ++ evs ∧ (∀ x ∈ evs, K x) ∧
      ((∃ x ∈ evs, Q x) → (fn w).2 = none)) :
    ∀ (n : Nat) (w : World), ∃ evs, (RetryOnConflict n fn w).1.trace = w.trace ++ evs ∧
      (∀ x ∈ evs, K x) ∧ ((∃ x ∈ evs, Q x) → (RetryOnConflict n fn w).2 = none) := by
  intro n
  induction n with
  | zero => intro w; exact ⟨[], by simp [RetryOnConflict], by simp, by simp⟩
  | succ k ih =>
    intro w
    cases k with
    | zero => simpa [RetryOnConflict] using hfn w
    | succ m =>
      rw [RetryOnConflict]
      · obtain ⟨evs, ht, hk, hq⟩ := hfn w
        rcases hf : fn w with ⟨w1, _ | e⟩
        · rw [hf] at ht
          exact ⟨evs, ht, hk, fun _ => rfl⟩
        · rw [hf] at ht hq
          simp only at ht hq ⊢
          split
          · obtain ⟨evs2, ht2, hk2, hq2⟩ := ih w1
            refine ⟨evs ++ evs2, by rw [ht2, ht, List.append_assoc], ?_, ?_⟩
            · intro x hx
              rcases List.mem_append.mp hx with h | h
              · exact hk x h
              · exact hk2 x h
            · rintro ⟨x, hx, hqx⟩
              rcases List.mem_append.mp hx with h | h
              · exact absurd (hq ⟨x, h, hqx⟩) (by simp)
              · exact hq2 ⟨x, h, hqx⟩
          · exact ⟨evs, ht, hk, hq⟩
      · simp

/-! ## The collaborators -/

@[simp]
theorem log_trace (w : World) (e : Event) : (w.log e).trace = w.trace ++ [e] := rfl
@[simp]
theorem log_obj (w : World) (e : Event) : (w.log e).obj = w.obj := rfl
@[simp]
theorem log_cms (w : World) (e : Event) : (w.log e).cms = w.cms := rfl

/-- The fetch only appends its own event; a fetched object is the stored one. -/
theorem storeGet_spec (env : Env) (w : World) (ns name : String) :
    (∃ e, storeGet env w ns name = (w.log (.get ns name (some e)), .error e)) ∨
    (∃ o, w.obj = some o ∧ o.Namespace = ns ∧ o.Name = name ∧
      env.fault w.trace.length = none ∧
      storeGet env w ns name = (w.log (.get ns name none), .ok o)) := by
  unfold storeGet
  cases hf : env.fault w.trace.length with
  | some e => exact Or.inl ⟨e, rfl⟩
  | none =>
    cases ho : w.obj with
    | none => exact Or.inl ⟨.notFound, rfl⟩
    | some o =>
      by_cases hk : o.Namespace = ns ∧ o.Name = name
      · exact Or.inr ⟨o, rfl, hk.1, hk.2, rfl, by simp [hk]⟩
      · exact Or.inl ⟨.notFound, by simp [hk]⟩

theorem storeStatusUpdate_spec (env : Env) (w : World) (o : S3Bucket) :
    (storeStatusUpdate env w o).1.trace = w.trace ++ [.statusUpdate o (storeStatusUpdate env w o).2] ∧
    (storeStatusUpdate env w o).1.cms = w.cms ∧
    (storeStatusUpdate env w o).1.finalizers = w.finalizers ∧
    ((storeStatusUpdate env w o).2 = none →
      (storeStatusUpdate env w o).1.state = some o.Status.State) := by
  unfold storeStatusUpdate
  cases hf : env.fault w.trace.length with
  | some e => simp [World.finalizers]
  | none =>
    cases ho : w.obj with
    | none => simp [World.finalizers, ho]
    | some cur =>
      by_cases hk : cur.Namespace = o.Namespace ∧ cur.Name = o.Name
      · by_cases hv : cur.ResourceVersion = o.ResourceVersion
        · simp [hk, hv, World.finalizers, World.state, World.log, ho]
        · simp [hk, hv, World.finalizers, ho]
      · simp [hk, World.finalizers, ho]

theorem storeUpdate_spec (env : Env) (w : World) (o : S3Bucket) :
    (storeUpdate env w o).1.trace = w.trace ++ [.update o (storeUpdate env w o).2] ∧
    (storeUpdate env w o).1.cms = w.cms ∧
    ((storeUpdate env w o).2 ≠ none → (storeUpdate env w o).1.obj = w.obj) ∧
    ((storeUpdate env w o).2 = none →
      ∃ cur, w.obj = some cur ∧ cur.Namespace = o.Namespace ∧ cur.Name = o.Name ∧
        (o.isReleased = true → (storeUpdate env w o).1.obj = none) ∧
        (o.isReleased = false → (storeUpdate env w o).1.obj =
          some { o with Status := cur.Status,
                        ResourceVersion := cur.ResourceVersion + 1 })) := by
  unfold storeUpdate
  cases hf : env.fault w.trace.length with
  | some e => simp
  | none =>
    cases ho : w.obj with
    | none => simp [ho]
    | some cur =>
      by_cases hk : cur.Namespace = o.Namespace ∧ cur.Name = o.Name
      · by_cases hv : cur.ResourceVersion = o.ResourceVersion
        · by_cases hr : o.isReleased = true
          · simp [hk, hv, hr, World.log]
          · simp [hk, hv, hr, World.log]
        · simp [hk, hv, ho]
      · simp [hk, ho]

theorem frame_refl (K : Event → Prop) (w : World) : Frame K w w :=
  ⟨emits_refl K w, rfl, rfl⟩

theorem frame_trans {K : Event → Prop} {w w1 w2 : World}
    (h1 : Frame K w w1) (h2 : Frame K w1 w2) : Frame K w w2 :=
  ⟨emits_trans h1.1 h2.1, h2.2.1.trans h1.2.1, h2.2.2.trans h1.2.2⟩

theorem frame_mono {K L : Event → Prop} {w w1 : World} (hKL : ∀ e, K e → L e)
    (h : Frame K w w1) : Frame L w w1 :=
  ⟨emits_mono hKL h.1, h.2⟩

/-! ## Status writes -/

theorem storeStatusUpdate_frame (K : Event → Prop) (env : Env) (w : World) (o : S3Bucket)
    (hK : ∀ r, K (.statusUpdate o r)) : Frame K w (storeStatusUpdate env w o).1 := by
  obtain ⟨ht, hc, hf, _⟩ := storeStatusUpdate_spec env w o
  exact ⟨emits_one ht (hK _), hf, hc⟩

theorem log_frame (K : Event → Prop) (w : World) (e : Event) (hK : K e) :
    Frame K w (w.log e) :=
  ⟨emits_one (log_trace w e) hK, rfl, rfl⟩

theorem statusAttempt_frame (env : Env) (s3bkt : S3Bucket) (st : String) (w0 : World) :
    Frame (fun e => e.isStatusIO st = true) w0 (statusAttempt env s3bkt st w0).1 := by
  unfold statusAttempt
  rcases storeGet_spec env w0 s3bkt.Namespace s3bkt.Name with ⟨e, h⟩ | ⟨o, _, _, _, _, h⟩
  · rw [h]
    exact log_frame _ _ _ rfl
  · rw [h]
    exact frame_trans (log_frame (fun e => e.isStatusIO st = true) w0
      (.get s3bkt.Namespace s3bkt.Name none) rfl)
      (storeStatusUpdate_frame (fun e => e.isStatusIO st = true) env _ _
        (fun r => by simp [Event.isStatusIO]))

theorem statusAttempt_success (env : Env) (s3bkt : S3Bucket) (st : String) (w0 w1 : World)
    (h : statusAttempt env s3bkt st w0 = (w1, none)) :
    w1.state = some st ∧ ∃ o, w1.trace.getLast? = some (.statusUpdate o none) := by
  unfold statusAttempt at h
  rcases storeGet_spec env w0 s3bkt.Namespace s3bkt.Name with ⟨e, hg⟩ | ⟨o, _, _, _, _, hg⟩
  · rw [hg] at h; simp at h
  · rw [hg] at h
    simp only at h
    obtain ⟨ht, _, _, hs⟩ := storeStatusUpdate_spec env
      (w0.log (.get s3bkt.Namespace s3bkt.Name none))
      { o with Status := { o.Status with State := st } }
    rw [h] at ht hs
    refine ⟨by simpa using hs rfl, ⟨{ o with Status := { o.Status with State := st } }, ?_⟩⟩
    simp only at ht
    rw [ht]
    simp

theorem statusAttempt_events (env : Env) (s3bkt : S3Bucket) (st : String) (w0 : World) :
    ∃ evs, (statusAttempt env s3bkt st w0).1.trace = w0.trace ++ evs ∧
      (∀ x ∈ evs, x.isStatusIO st = true) ∧
      ((∃ x ∈ evs, ∃ o, x = Event.statusUpdate o none) →
        (statusAttempt env s3bkt st w0).2 = none) := by
  unfold statusAttempt
  rcases storeGet_spec env w0 s3bkt.Namespace s3bkt.Name with ⟨e, h⟩ | ⟨o, _, _, _, _, h⟩
  · rw [h]
    exact ⟨[.get s3bkt.Namespace s3bkt.Name (some e)], rfl, by simp [Event.isStatusIO], by simp⟩
  · rw [h]
    simp only
    obtain ⟨ht, _, _, _⟩ := storeStatusUpdate_spec env
      (w0.log (.get s3bkt.Namespace s3bkt.Name none))
      { o with Status := { o.Status with State := st } }
    refine ⟨[.get s3bkt.Namespace s3bkt.Name none,
      .statusUpdate { o with Status := { o.Status with State := st } }
        (storeStatusUpdate env (w0.log (.get s3bkt.Namespace s3bkt.Name none))
          { o with Status := { o.Status with State := st } }).2], ?_, ?_, ?_⟩
    · simp only at ht
      rw [ht]; simp
    · simp [Event.isStatusIO]
    · simp

/-- What a status write does: an entry event, then fetches and status updates for
that state only; finalizers and config maps are untouched; it succeeds exactly when a
`Status().Update` succeeded, and then the stored state is the requested one. -/
theorem updateBucketStatus_spec (env : Env) (w : World) (s3bkt : S3Bucket) (st : String) :
    ∃ su, (updateBucketStatus env w s3bkt st).1.trace = w.trace ++ .setState st :: su ∧
      (∀ e ∈ su, e.isStatusIO st = true) ∧
      (updateBucketStatus env w s3bkt st).1.finalizers = w.finalizers ∧
      (updateBucketStatus env w s3bkt st).1.cms = w.cms ∧
      ((updateBucketStatus env w s3bkt st).2 = none →
        (updateBucketStatus env w s3bkt st).1.state = some st ∧
        ∃ o, Event.statusUpdate o none ∈ su) ∧
      (∀ o, Event.statusUpdate o none ∈ su → (updateBucketStatus env w s3bkt st).2 = none) := by
  unfold updateBucketStatus
  obtain ⟨_, hf, hc⟩ :=
    retry_preserves (Frame (fun e => e.isStatusIO st = true)) (frame_refl _)
      (fun _ _ _ => frame_trans) (statusAttempt env s3bkt st) (statusAttempt_frame env s3bkt st)
      defaultBackoffSteps (w.log (.setState st))
  obtain ⟨su, ht, hk, hq⟩ :=
    retry_events (fun e => e.isStatusIO st = true) (fun x => ∃ o, x = Event.statusUpdate o none)
      (statusAttempt env s3bkt st) (statusAttempt_events env s3bkt st)
      defaultBackoffSteps (w.log (.setState st))
  have ht2 : (RetryOnConflict defaultBackoffSteps (statusAttempt env s3bkt st)
      (w.log (.setState st))).1.trace = w.trace ++ .setState st :: su := by rw [ht]; simp
  refine ⟨su, ht2, hk, by rw [hf]; rfl, by rw [hc]; rfl, ?_, fun o ho => hq ⟨_, ho, o, rfl⟩⟩
  intro hres
  obtain ⟨w0, hw0⟩ := retry_success (statusAttempt env s3bkt st) 3 (w.log (.setState st)) hres
  obtain ⟨hst, o, hlast⟩ := statusAttempt_success env s3bkt st w0 _ hw0
  refine ⟨hst, o, ?_⟩
  change (RetryOnConflict defaultBackoffSteps _ _).1.trace.getLast? = _ at hlast
  rw [ht2] at hlast
  cases su with
  | nil => simp at hlast
  | cons a t =>
    have e : w.trace ++ Event.setState st :: a :: t = (w.trace ++ [.setState st]) ++ (a :: t) := by
      simp
    rw [e, List.getLast?_append_of_ne_nil _ (by simp)] at hlast
    exact List.mem_of_getLast?_eq_some hlast

/-! ## The creation workflow -/

theorem isStatusIO_not_step (st : String) (e : Event) (h : e.isStatusIO st = true) :
    e.step? = none := by
  cases e <;> simp_all [Event.isStatusIO, Event.step?]

theorem steps_statusIO (st : String) (su : List Event) (h : ∀ e ∈ su, e.isStatusIO st = true) :
    steps su = [] := by
  unfold steps
  rw [List.filterMap_eq_nil_iff]
  exact fun e he => isStatusIO_not_step st e (h e he)

/-- C5. Creation failure policy: when the CREATING status write has succeeded and the
external create-bucket call fails with `e`, `CreateResource` emits exactly the
CREATING status write, the failed create call and an ERROR status write; it returns a
non-nil error; there is no wait-until-exists call, no config map creation and no
`r.Update` (the only call that writes the finalizer set), and the stored finalizer set
and config maps are unchanged. -/
theorem createResource_create_failure (env : Env) (w : World) (s3bkt : S3Bucket) (e : Err)
    (hst : (updateBucketStatus env w s3bkt CREATING_STATE).2 = none)
    (hfail : env.fault (updateBucketStatus env w s3bkt CREATING_STATE).1.trace.length = some e) :
    ∃ su1 su2 evs,
      (CreateResource env w s3bkt).1.trace = w.trace ++ evs ∧
      evs = .setState CREATING_STATE :: su1 ++
        .createBucket s3bkt.Spec.Name s3bkt.Spec.Locked (some e) ::
        .setState ERROR_STATE :: su2 ∧
      (∀ x ∈ su1, x.isStatusIO CREATING_STATE = true) ∧
      (∀ x ∈ su2, x.isStatusIO ERROR_STATE = true) ∧
      (CreateResource env w s3bkt).2 =
        some (.wrap "failed to create S3 bucket" (.wrap "S3 CreateBucket API call failed" e)) ∧
      (∀ b r, Event.waitUntilBucketExists b r ∉ evs) ∧
      (∀ cm r, Event.cmCreate cm r ∉ evs) ∧
      (∀ o r, Event.update o r ∉ evs) ∧
      (CreateResource env w s3bkt).1.finalizers = w.finalizers ∧
      (CreateResource env w s3bkt).1.cms = w.cms := by
  obtain ⟨su1, ht1, hk1, hf1, hc1, _, _⟩ := updateBucketStatus_spec env w s3bkt CREATING_STATE
  rcases hu : updateBucketStatus env w s3bkt CREATING_STATE with ⟨w1, r1⟩
  rw [hu] at hst hfail ht1 hf1 hc1
  simp only at hst hfail ht1 hf1 hc1
  subst hst
  obtain ⟨su2, ht2, hk2, hf2, hc2, _, _⟩ := updateBucketStatus_spec env
    (w1.log (.createBucket s3bkt.Spec.Name s3bkt.Spec.Locked (some e))) s3bkt ERROR_STATE
  have hcr : CreateResource env w s3bkt =
      ((updateBucketStatus env (w1.log (.createBucket s3bkt.Spec.Name s3bkt.Spec.Locked (some e)))
          s3bkt ERROR_STATE).1,
        some (.wrap "failed to create S3 bucket" (.wrap "S3 CreateBucket API call failed" e))) := by
    simp [CreateResource, hu, createS3Bucket, s3CreateBucket, hfail]
  rw [hcr]
  refine ⟨su1, su2, _, ?_, rfl, hk1, hk2, rfl, ?_, ?_, ?_, ?_, ?_⟩
  · simp only [ht2, log_trace, ht1]; simp
  · intro b r hm
    simp only [List.cons_append, List.mem_cons, List.mem_append] at hm
    rcases hm with h | h | h | h | h
    · cases h
    · simpa [Event.isStatusIO] using hk1 _ h
    · cases h
    · cases h
    · simpa [Event.isStatusIO] using hk2 _ h
  · intro b r hm
    simp only [List.cons_append, List.mem_cons, List.mem_append] at hm
    rcases hm with h | h | h | h | h
    · cases h
    · simpa [Event.isStatusIO] using hk1 _ h
    · cases h
    · cases h
    · simpa [Event.isStatusIO] using hk2 _ h
  · intro b r hm
    simp only [List.cons_append, List.mem_cons, List.mem_append] at hm
    rcases hm with h | h | h | h | h
    · cases h
    · simpa [Event.isStatusIO] using hk1 _ h
    · cases h
    · cases h
    · simpa [Event.isStatusIO] using hk2 _ h
  · simp only [hf2]; exact hf1
  · simp only [hc2]; exact hc1

/-- Witness for C5: the create call of the first pass over `log-archive` fails. -/
theorem createResource_create_failure_witness :
    (updateBucketStatus (faultAt 3 (.aws "BucketAlreadyExists")) (worldOf logArchive) logArchive
      CREATING_STATE).2 = none ∧
    (faultAt 3 (.aws "BucketAlreadyExists")).fault
      (updateBucketStatus (faultAt 3 (.aws "BucketAlreadyExists")) (worldOf logArchive) logArchive
        CREATING_STATE).1.trace.length = some (.aws "BucketAlreadyExists") ∧
    (CreateResource (faultAt 3 (.aws "BucketAlreadyExists")) (worldOf logArchive) logArchive).2 =
      some (.wrap "failed to create S3 bucket"
        (.wrap "S3 CreateBucket API call failed" (.aws "BucketAlreadyExists"))) := by
  obtain ⟨_, _, _, _, _, _, _, h, _⟩ :=
    createResource_create_failure (faultAt 3 (.aws "BucketAlreadyExists")) (worldOf logArchive)
      logArchive (.aws "BucketAlreadyExists") (by decide) (by decide)
  exact ⟨by decide, by decide, h⟩

theorem storeCmCreate_spec (env : Env) (w : World) (cm : ConfigMap) :
    (storeCmCreate env w cm).1.trace = w.trace ++ [.cmCreate cm (storeCmCreate env w cm).2] ∧
    (storeCmCreate env w cm).1.obj = w.obj := by
  unfold storeCmCreate
  cases hf : env.fault w.trace.length with
  | some e => simp
  | none =>
    by_cases hk : w.cms.any (fun c => c.hasKey cm.Namespace cm.Name) = true
    · simp only [hk]; simp
    · simp only [hk]; simp [World.log]

theorem isStatusIO_isWritten (st st2 : String) (x : Event) (h : x.isStatusIO st = true)
    (hne : st ≠ st2) : x.isWritten st2 = false := by
  cases x with
  | statusUpdate o r =>
    cases r with
    | none =>
      simp only [Event.isStatusIO, beq_iff_eq] at h
      simp [Event.isWritten, h, hne]
    | some e => rfl
  | _ => rfl

theorem isStatusIO_isCreateBucket (st : String) (x : Event) (h : x.isStatusIO st = true) :
    x.isCreateBucket = false := by
  cases x <;> simp_all [Event.isStatusIO, Event.isCreateBucket]

theorem isWritten_of_mem (st : String) (su : List Event)
    (hk : ∀ e ∈ su, e.isStatusIO st = true) (o : S3Bucket)
    (ho : Event.statusUpdate o none ∈ su) :
    ∃ y ∈ su, y.isWritten st = true :=
  ⟨_, ho, by simpa [Event.isStatusIO, Event.isWritten] using hk _ ho⟩

theorem mem_of_isWritten (st : String) (x : Event) (h : x.isWritten st = true) :
    ∃ o, x = Event.statusUpdate o none := by
  cases x with
  | statusUpdate o r =>
    cases r with
    | none => exact ⟨o, rfl⟩
    | some e => simp [Event.isWritten] at h
  | _ => simp [Event.isWritten] at h

/-- No event of kind `K` occurs in a `K`-free list. -/
theorem not_split (K : Event → Prop) (l pre : List Event) (e : Event) (post : List Event)
    (hfree : ∀ x ∈ l, ¬ K x) (hK : K e) (h : l = pre ++ e :: post) : False :=
  hfree e (by rw [h]; simp) hK

/-- The shape of a creation or deletion pass that got beyond its first status write:
the first status write, collaborator calls `mid`, a second status write. -/
theorem two_writes_shape (st1 st2 st : String) (su1 mid su2 : List Event)
    (hk1 : ∀ e ∈ su1, e.isStatusIO st1 = true) (hk2 : ∀ e ∈ su2, e.isStatusIO st2 = true)
    (hne : st1 ≠ st)
    (hmid : ∀ e ∈ mid, e.step? ≠ none ∧ e.isWritten st = false) :
    (∀ x ∈ Event.setState st1 :: su1 ++ mid ++ Event.setState st2 :: su2,
      x.step? = none → ∃ s, x.isStatusIO s = true) ∧
    (∀ pre x post, Event.setState st1 :: su1 ++ mid ++ Event.setState st2 :: su2
        = pre ++ x :: post → x.isCreateBucket = true →
      ∀ y ∈ su1, y ∈ pre) ∧
    (∀ pre x post, Event.setState st1 :: su1 ++ mid ++ Event.setState st2 :: su2
        = pre ++ x :: post → x.isWritten st = true →
      (∀ m ∈ mid, m ∈ pre) ∧ x ∈ su2) := by
  refine ⟨?_, ?_, ?_⟩
  · intro x hx hstep
    simp only [List.cons_append, List.mem_cons, List.mem_append] at hx
    rcases hx with rfl | (h | h) | rfl | h
    · simp [Event.step?] at hstep
    · exact ⟨_, hk1 x h⟩
    · exact absurd hstep (hmid x h).1
    · simp [Event.step?] at hstep
    · exact ⟨_, hk2 x h⟩
  · intro pre x post h hx
    have h2 : (Event.setState st1 :: su1) ++ (mid ++ Event.setState st2 :: su2)
        = pre ++ x :: post := by simpa using h
    have hfree : ∀ y ∈ Event.setState st1 :: su1, ¬ y.isCreateBucket = true := by
      intro y hy
      rcases List.mem_cons.mp hy with rfl | h
      · simp [Event.isCreateBucket]
      · simp [isStatusIO_isCreateBucket _ _ (hk1 y h)]
    obtain ⟨m, hm, -⟩ :=
      split_after (fun y => y.isCreateBucket = true) _ _ pre x post hfree hx h2
    intro y hy; rw [hm]; simp [hy]
  · intro pre x post h hx
    have h2 : (Event.setState st1 :: su1 ++ mid ++ [Event.setState st2]) ++ su2
        = pre ++ x :: post := by simpa using h
    have hfree : ∀ y ∈ Event.setState st1 :: su1 ++ mid ++ [Event.setState st2],
        ¬ y.isWritten st = true := by
      intro y hy
      simp only [List.cons_append, List.mem_cons, List.mem_append, List.mem_singleton,
        List.not_mem_nil, or_false] at hy
      rcases hy with rfl | (h | h) | rfl
      · simp [Event.isWritten]
      · simp [isStatusIO_isWritten _ st _ (hk1 y h) hne]
      · simp [(hmid y h).2]
      · simp [Event.isWritten]
    obtain ⟨m, hm, hm2⟩ :=
      split_after (fun y => y.isWritten st = true) _ _ pre x post hfree hx h2
    refine ⟨?_, by rw [hm2]; simp⟩
    intro y hy; rw [hm]; simp [hy]

theorem steps_shape (st1 st2 : String) (su1 mid su2 : List Event)
    (hk1 : ∀ e ∈ su1, e.isStatusIO st1 = true) (hk2 : ∀ e ∈ su2, e.isStatusIO st2 = true) :
    steps (Event.setState st1 :: su1 ++ mid ++ Event.setState st2 :: su2) =
      .statusWrite st1 :: steps mid ++ [.statusWrite st2] := by
  have h1 := steps_statusIO _ _ hk1
  have h2 := steps_statusIO _ _ hk2
  unfold steps at *
  simp [List.filterMap_append, List.filterMap_cons, Event.step?, h1, h2]

/-- A creation pass that stops at a failed collaborator call after `k` steps. -/
theorem create_error_case (w : World) (res : World × Option Err) (su1 mid su2 : List Event)
    (k : Nat) (hk1 : ∀ e ∈ su1, e.isStatusIO CREATING_STATE = true)
    (hk2 : ∀ e ∈ su2, e.isStatusIO ERROR_STATE = true)
    (hy1 : ∃ y ∈ su1, y.isWritten CREATING_STATE = true)
    (hmid : ∀ e ∈ mid, e.step? ≠ none ∧ e.isWritten CREATED_STATE = false)
    (hsteps : .statusWrite CREATING_STATE :: steps mid = creationOrder.take k)
    (htr : res.1.trace = w.trace ++
      (Event.setState CREATING_STATE :: su1 ++ mid ++ Event.setState ERROR_STATE :: su2))
    (hr : res.2 ≠ none) : StepOrder w res := by
  obtain ⟨h3, h4, h5⟩ := two_writes_shape CREATING_STATE ERROR_STATE CREATED_STATE su1 mid su2
    hk1 hk2 (by decide) hmid
  refine ⟨_, htr, ⟨k, Or.inr ?_⟩, h3, ?_, ?_, fun h => absurd h hr⟩
  · rw [steps_shape _ _ _ _ _ hk1 hk2, ← hsteps]
  · intro pre x post h hx
    obtain ⟨y, hy, hyw⟩ := hy1
    exact ⟨y, h4 pre x post h hx y hy, hyw⟩
  · intro pre x post h hx
    have hx2 := (h5 pre x post h hx).2
    rw [isStatusIO_isWritten _ CREATED_STATE _ (hk2 x hx2) (by decide)] at hx
    simp at hx

/-- C6. Step order of the creation workflow: whatever the collaborators answer, the
steps of `CreateResource` are a leading part of
[status write CREATING, create bucket, wait until exists, create config map, status
write CREATED], possibly followed by one status write of ERROR; every other event is
a fetch or a `Status().Update` inside a status write; a create-bucket call comes only
after a successful CREATING status update; a successful CREATED status update comes
only after a successful create, wait and config map creation, and then
`CreateResource` returns no error. -/
theorem createResource_step_order (env : Env) (w : World) (s3bkt : S3Bucket) :
    ∃ evs, (CreateResource env w s3bkt).1.trace = w.trace ++ evs ∧
      (∃ k, steps evs = creationOrder.take k ∨
            steps evs = creationOrder.take k ++ [.statusWrite ERROR_STATE]) ∧
      (∀ x ∈ evs, x.step? = none → ∃ st, x.isStatusIO st = true) ∧
      (∀ pre x post, evs = pre ++ x :: post → x.isCreateBucket = true →
        ∃ y ∈ pre, y.isWritten CREATING_STATE = true) ∧
      (∀ pre x post, evs = pre ++ x :: post → x.isWritten CREATED_STATE = true →
        (∃ b l, Event.createBucket b l none ∈ pre) ∧
        (∃ b, Event.waitUntilBucketExists b none ∈ pre) ∧
        (∃ cm, Event.cmCreate cm none ∈ pre) ∧
        (CreateResource env w s3bkt).2 = none) ∧
      ((CreateResource env w s3bkt).2 = none → steps evs = creationOrder) := by
  show StepOrder w (CreateResource env w s3bkt)
  obtain ⟨su1, ht1, hk1, -, -, hs1, -⟩ := updateBucketStatus_spec env w s3bkt CREATING_STATE
  rcases hu1 : updateBucketStatus env w s3bkt CREATING_STATE with ⟨w1, _ | e1⟩
  case some =>
    -- the CREATING status write failed
    have hsu1 := steps_statusIO _ _ hk1
    unfold steps at hsu1
    have hcr : CreateResource env w s3bkt =
        (w1, some (.wrap "failed to update status to CREATING" e1)) := by
      simp [CreateResource, hu1]
    rw [hu1] at ht1
    rw [hcr]
    refine ⟨_, ht1, ⟨1, Or.inl ?_⟩, ?_, ?_, ?_, ?_⟩
    · simp [steps, Event.step?, hsu1, creationOrder]
    · intro x hx _
      rcases List.mem_cons.mp hx with rfl | h
      · simp [Event.step?] at *
      · exact ⟨_, hk1 x h⟩
    · intro pre x post h hx
      refine (not_split (fun y => y.isCreateBucket = true) _ pre x post ?_ hx h).elim
      intro y hy
      rcases List.mem_cons.mp hy with rfl | h
      · simp [Event.isCreateBucket]
      · simp [isStatusIO_isCreateBucket _ _ (hk1 y h)]
    · intro pre x post h hx
      refine (not_split (fun y => y.isWritten CREATED_STATE = true) _ pre x post ?_ hx h).elim
      intro y hy
      rcases List.mem_cons.mp hy with rfl | h
      · simp [Event.isWritten]
      · simp [isStatusIO_isWritten _ CREATED_STATE _ (hk1 y h) (by decide)]
    · intro h; simp at h
  case none =>
    rw [hu1] at ht1 hs1
    simp only at ht1 hs1
    obtain ⟨-, o1, ho1⟩ := hs1 trivial
    have hy1 := isWritten_of_mem _ _ hk1 o1 ho1
    cases hf2 : env.fault w1.trace.length with
    | some e2 =>
      -- the create-bucket call failed
      obtain ⟨su2, ht2, hk2, -⟩ := updateBucketStatus_spec env
        (w1.log (.createBucket s3bkt.Spec.Name s3bkt.Spec.Locked (some e2))) s3bkt ERROR_STATE
      have hcr : CreateResource env w s3bkt =
          ((updateBucketStatus env
            (w1.log (.createBucket s3bkt.Spec.Name s3bkt.Spec.Locked (some e2)))
            s3bkt ERROR_STATE).1,
           some (.wrap "failed to create S3 bucket"
             (.wrap "S3 CreateBucket API call failed" e2))) := by
        simp [CreateResource, hu1, createS3Bucket, s3CreateBucket, hf2]
      rw [hcr]
      refine create_error_case w _ su1
        [.createBucket s3bkt.Spec.Name s3bkt.Spec.Locked (some e2)] su2 2 hk1 hk2 hy1
        (by simp [Event.step?, Event.isWritten]) (by simp [steps, Event.step?, creationOrder])
        ?_ (by simp)
      simp only [ht2, log_trace, ht1]; simp
    | none =>
      cases hf3 : env.fault (w1.trace.length + 1) with
      | some e3 =>
        -- the wait for the bucket failed
        obtain ⟨su2, ht2, hk2, -⟩ := updateBucketStatus_spec env
          ((w1.log (.createBucket s3bkt.Spec.Name s3bkt.Spec.Locked none)).log
            (.waitUntilBucketExists s3bkt.Spec.Name (some e3))) s3bkt ERROR_STATE
        have hcr : CreateResource env w s3bkt =
            ((updateBucketStatus env
              ((w1.log (.createBucket s3bkt.Spec.Name s3bkt.Spec.Locked none)).log
                (.waitUntilBucketExists s3bkt.Spec.Name (some e3))) s3bkt ERROR_STATE).1,
             some (.wrap "bucket creation timeout"
               (.wrap "bucket did not become ready" e3))) := by
          simp [CreateResource, hu1, createS3Bucket, s3CreateBucket, hf2, waitForBucketReady,
            s3WaitUntilBucketExists, hf3]
        rw [hcr]
        refine create_error_case w _ su1
          [.createBucket s3bkt.Spec.Name s3bkt.Spec.Locked none,
           .waitUntilBucketExists s3bkt.Spec.Name (some e3)] su2 3 hk1 hk2 hy1
          (by simp [Event.step?, Event.isWritten]) (by simp [steps, Event.step?, creationOrder])
          ?_ (by simp)
        simp only [ht2, log_trace, ht1]; simp
      | none =>
        have hcm := (storeCmCreate_spec env
          ((w1.log (.createBucket s3bkt.Spec.Name s3bkt.Spec.Locked none)).log
            (.waitUntilBucketExists s3bkt.Spec.Name none))
          (bucketConfigMap s3bkt (env.location w1.trace.length))).1
        rcases hc4 : storeCmCreate env
          ((w1.log (.createBucket s3bkt.Spec.Name s3bkt.Spec.Locked none)).log
            (.waitUntilBucketExists s3bkt.Spec.Name none))
          (bucketConfigMap s3bkt (env.location w1.trace.length)) with ⟨w4, _ | e4⟩
        case some =>
          -- publishing the config map failed
          rw [hc4] at hcm
          simp only [log_trace] at hcm
          obtain ⟨su2, ht2, hk2, -⟩ := updateBucketStatus_spec env w4 s3bkt ERROR_STATE
          have hcr : CreateResource env w s3bkt =
              ((updateBucketStatus env w4 s3bkt ERROR_STATE).1,
               some (.wrap "failed to create ConfigMap"
                 (.wrap "failed to create ConfigMap" e4))) := by
            simp [CreateResource, hu1, createS3Bucket, s3CreateBucket, hf2, waitForBucketReady,
              s3WaitUntilBucketExists, hf3, createBucketConfigMap, hc4]
          rw [hcr]
          refine create_error_case w _ su1
            [.createBucket s3bkt.Spec.Name s3bkt.Spec.Locked none,
             .waitUntilBucketExists s3bkt.Spec.Name none,
             .cmCreate (bucketConfigMap s3bkt (env.location w1.trace.length)) (some e4)]
            su2 4 hk1 hk2 hy1
            (by simp [Event.step?, Event.isWritten])
            (by simp [steps, Event.step?, creationOrder]) ?_ (by simp)
          simp only [ht2, hcm, ht1]; simp
        case none =>
          -- all three calls succeeded: the CREATED status write
          rw [hc4] at hcm
          simp only [log_trace] at hcm
          obtain ⟨su5, ht5, hk5, -, -, -, hq5⟩ :=
            updateBucketStatus_spec env w4 s3bkt CREATED_STATE
          have hcr : CreateResource env w s3bkt =
              ((updateBucketStatus env w4 s3bkt CREATED_STATE).1,
               (updateBucketStatus env w4 s3bkt CREATED_STATE).2.map
                 (Err.wrap "failed to update status to CREATED")) := by
            simp only [CreateResource, hu1, createS3Bucket, s3CreateBucket, hf2,
              waitForBucketReady, s3WaitUntilBucketExists, hf3, createBucketConfigMap, hc4,
              log_trace, List.length_append, List.length_singleton]
            rcases updateBucketStatus env w4 s3bkt CREATED_STATE with ⟨w5, _ | e5⟩ <;> rfl
          rw [hcr]
          obtain ⟨h3, h4, h5⟩ := two_writes_shape CREATING_STATE CREATED_STATE CREATED_STATE su1
            [.createBucket s3bkt.Spec.Name s3bkt.Spec.Locked none,
             .waitUntilBucketExists s3bkt.Spec.Name none,
             .cmCreate (bucketConfigMap s3bkt (env.location w1.trace.length)) none]
            su5 hk1 hk5 (by decide) (by simp [Event.step?, Event.isWritten])
          have hst : steps (Event.setState CREATING_STATE :: su1 ++
              [.createBucket s3bkt.Spec.Name s3bkt.Spec.Locked none,
               .waitUntilBucketExists s3bkt.Spec.Name none,
               .cmCreate (bucketConfigMap s3bkt (env.location w1.trace.length)) none] ++
              Event.setState CREATED_STATE :: su5) = creationOrder := by
            rw [steps_shape _ _ _ _ _ hk1 hk5]
            simp [steps, Event.step?, creationOrder]
          refine ⟨_, ?_, ⟨5, Or.inl ?_⟩, h3, ?_, ?_, fun _ => hst⟩
          · simp only [ht5, hcm, ht1]; simp
          · rw [hst]; simp [creationOrder]
          · intro pre x post h hx
            obtain ⟨y, hy, hyw⟩ := hy1
            exact ⟨y, h4 pre x post h hx y hy, hyw⟩
          · intro pre x post h hx
            obtain ⟨hm, hx5⟩ := h5 pre x post h hx
            obtain ⟨o, rfl⟩ := mem_of_isWritten _ _ hx
            refine ⟨⟨_, _, hm (.createBucket s3bkt.Spec.Name s3bkt.Spec.Locked none) (by simp)⟩,
              ⟨_, hm (.waitUntilBucketExists s3bkt.Spec.Name none) (by simp)⟩,
              ⟨_, hm (.cmCreate (bucketConfigMap s3bkt (env.location w1.trace.length)) none)
                (by simp)⟩, ?_⟩
            simp [hq5 o hx5]

/-! ## The deletion workflow -/

theorem deleteS3Bucket_spec (env : Env) (w : World) (s3bkt : S3Bucket) :
    (deleteS3Bucket env w s3bkt).1 =
      w.log (.deleteBucket s3bkt.Spec.Name (env.fault w.trace.length)) ∧
    ((deleteS3Bucket env w s3bkt).2 = none ↔ deleteOk (env.fault w.trace.length) = true) := by
  unfold deleteS3Bucket s3DeleteBucket
  cases h : env.fault w.trace.length with
  | none => simp [deleteOk]
  | some e =>
    cases e <;> simp [deleteOk]
    split <;> simp_all
    split <;> simp_all

theorem storeCmGet_spec (env : Env) (w : World) (ns name : String) :
    ∃ r, (storeCmGet env w ns name).1 = w.log (.cmGet ns name r) := by
  unfold storeCmGet
  cases env.fault w.trace.length with
  | some e => exact ⟨_, rfl⟩
  | none =>
    cases w.cms.find? (fun c => c.hasKey ns name) with
    | some c => exact ⟨_, rfl⟩
    | none => exact ⟨_, rfl⟩

theorem storeCmDelete_spec (env : Env) (w : World) (cm : ConfigMap) :
    (storeCmDelete env w cm).1.trace = w.trace ++ [.cmDelete cm (storeCmDelete env w cm).2] ∧
    (storeCmDelete env w cm).1.obj = w.obj := by
  unfold storeCmDelete
  cases hf : env.fault w.trace.length with
  | some e => simp
  | none =>
    by_cases hk : w.cms.any (fun c => c.hasKey cm.Namespace cm.Name) = true
    · simp only [hk]; simp [World.log]
    · simp only [hk]; simp

/-- The config map cleanup: a lookup under the name `configMapName`, then at most one
delete; it never reports an error and leaves the stored object alone. -/
theorem deleteBucketConfigMap_spec (env : Env) (w : World) (s3bkt : S3Bucket) :
    (deleteBucketConfigMap env w s3bkt).2 = none ∧
    (deleteBucketConfigMap env w s3bkt).1.obj = w.obj ∧
    ∃ r rest, (deleteBucketConfigMap env w s3bkt).1.trace =
        w.trace ++ .cmGet s3bkt.Namespace (configMapName s3bkt.Name) r :: rest ∧
      ∀ x ∈ rest, ∃ cm r2, x = Event.cmDelete cm r2 := by
  unfold deleteBucketConfigMap
  obtain ⟨r, hg⟩ := storeCmGet_spec env w s3bkt.Namespace (configMapName s3bkt.Name)
  rcases hget : storeCmGet env w s3bkt.Namespace (configMapName s3bkt.Name) with ⟨w1, e | cm⟩
  · rw [hget] at hg
    simp only at hg
    subst hg
    exact ⟨rfl, rfl, r, [], by simp, by simp⟩
  · rw [hget] at hg
    simp only at hg
    subst hg
    obtain ⟨ht, ho⟩ := storeCmDelete_spec env
      (w.log (.cmGet s3bkt.Namespace (configMapName s3bkt.Name) r)) cm
    rcases hd : storeCmDelete env
      (w.log (.cmGet s3bkt.Namespace (configMapName s3bkt.Name) r)) cm with ⟨w2, _ | e2⟩
    · rw [hd] at ht ho
      simp only [log_trace, log_obj] at ht ho
      simp only [hd]
      exact ⟨trivial, ho, r, [.cmDelete cm none], by rw [ht]; simp, by simp⟩
    · rw [hd] at ht ho
      simp only [log_trace, log_obj] at ht ho
      simp only [hd]
      exact ⟨trivial, ho, r, [.cmDelete cm (some e2)], by rw [ht]; simp, by simp⟩

/-- The three ways through `performCleanup`, decided by the outcomes of the delete
call and of the wait call. -/
theorem performCleanup_spec (env : Env) (w : World) (s3bkt : S3Bucket) :
    (deleteOk (env.fault w.trace.length) = false →
      (performCleanup env w s3bkt).1 =
        w.log (.deleteBucket s3bkt.Spec.Name (env.fault w.trace.length)) ∧
      (performCleanup env w s3bkt).2 ≠ none) ∧
    (deleteOk (env.fault w.trace.length) = true →
      ∀ e, env.fault (w.trace.length + 1) = some e →
      (performCleanup env w s3bkt).1 =
        (w.log (.deleteBucket s3bkt.Spec.Name (env.fault w.trace.length))).log
          (.waitUntilBucketNotExists s3bkt.Spec.Name (some e)) ∧
      (performCleanup env w s3bkt).2 ≠ none) ∧
    (deleteOk (env.fault w.trace.length) = true →
      env.fault (w.trace.length + 1) = none →
      performCleanup env w s3bkt =
        ((deleteBucketConfigMap env
          ((w.log (.deleteBucket s3bkt.Spec.Name (env.fault w.trace.length))).log
            (.waitUntilBucketNotExists s3bkt.Spec.Name none)) s3bkt).1, none)) := by
  obtain ⟨hd1, hd2⟩ := deleteS3Bucket_spec env w s3bkt
  unfold performCleanup
  rcases hd : deleteS3Bucket env w s3bkt with ⟨w1, _ | e1⟩
  · rw [hd] at hd1 hd2
    simp only at hd1 hd2
    subst hd1
    have hok := hd2.mp trivial
    refine ⟨by simp [hok], ?_, ?_⟩
    · intro _ e he
      simp [waitForBucketDeleted, s3WaitUntilBucketNotExists, he]
    · intro _ he
      simp [waitForBucketDeleted, s3WaitUntilBucketNotExists, he]
  · rw [hd] at hd1 hd2
    simp only at hd1 hd2
    subst hd1
    have hok : deleteOk (env.fault w.trace.length) = false := by
      cases h : deleteOk (env.fault w.trace.length) with
      | false => rfl
      | true => simp [h] at hd2
    refine ⟨by simp, ?_, ?_⟩ <;> simp [hok]

/-! ## The finalizer manager -/

theorem guarded_refl (K : Event → Prop) (w : World) : Guarded K w w :=
  ⟨[], by simp, by simp, rfl, fun _ => rfl⟩

theorem guarded_trans {K : Event → Prop} {a b c : World}
    (h1 : Guarded K a b) (h2 : Guarded K b c) : Guarded K a c := by
  obtain ⟨e1, t1, k1, c1, f1⟩ := h1
  obtain ⟨e2, t2, k2, c2, f2⟩ := h2
  refine ⟨e1 ++ e2, by rw [t2, t1, List.append_assoc], ?_, c2.trans c1, ?_⟩
  · intro x hx
    rcases List.mem_append.mp hx with h | h
    · exact k1 x h
    · exact k2 x h
  · intro h
    rw [f2 (fun x hx => h x (List.mem_append.mpr (Or.inr hx))),
      f1 (fun x hx => h x (List.mem_append.mpr (Or.inl hx)))]

theorem guarded_log (K : Event → Prop) (w : World) (e : Event) (hK : K e) :
    Guarded K w (w.log e) :=
  ⟨[e], rfl, by simpa using hK, rfl, fun _ => rfl⟩

theorem guarded_update (K : Event → Prop) (env : Env) (w : World) (o : S3Bucket)
    (hK : ∀ r, K (.update o r)) : Guarded K w (storeUpdate env w o).1 := by
  obtain ⟨ht, hc, hne, -⟩ := storeUpdate_spec env w o
  refine ⟨_, ht, by simpa using hK _, hc, ?_⟩
  intro h
  have h1 := h _ (List.mem_singleton.mpr rfl)
  cases hr : (storeUpdate env w o).2 with
  | none => rw [hr] at h1; simp [Event.isUpdateOk] at h1
  | some e =>
    have := hne (by rw [hr]; simp)
    simp [World.finalizers, this]

/-- The loop makes its first attempt; what follows only extends the trace. -/
theorem retry_first (fn : World → World × Option Err)
    (hfn : ∀ w, ∃ evs, (fn w).1.trace = w.trace ++ evs) (n : Nat) (w : World) :
    ∃ evs, (RetryOnConflict (n + 1) fn w).1.trace = (fn w).1.trace ++ evs := by
  cases n with
  | zero => exact ⟨[], by simp [RetryOnConflict]⟩
  | succ m =>
    rw [RetryOnConflict]
    · rcases hf : fn w with ⟨w1, _ | e⟩
      · exact ⟨[], by simp⟩
      · simp only
        split
        · obtain ⟨evs, ht, -⟩ := retry_preserves (Emits (fun _ => True)) (emits_refl _)
            (fun _ _ _ => emits_trans) fn
            (fun w0 => by
              obtain ⟨evs, h⟩ := hfn w0
              exact ⟨evs, h, fun _ _ => trivial⟩) (m + 1) w1
          exact ⟨evs, ht⟩
        · exact ⟨[], by simp⟩
    · simp

/-- A first attempt that succeeds ends the loop. -/
theorem retry_first_success (fn : World → World × Option Err) (n : Nat) (w w1 : World)
    (h : fn w = (w1, none)) : RetryOnConflict (n + 1) fn w = (w1, none) := by
  cases n with
  | zero => simpa [RetryOnConflict] using h
  | succ m =>
    rw [RetryOnConflict]
    · simp [h]
    · simp

theorem removeAttempt_guarded (env : Env) (s3bkt : S3Bucket) (w0 : World) :
    Guarded (fun e => e.isRemoveIO = true) w0 (removeAttempt env s3bkt w0).1 := by
  unfold removeAttempt
  rcases storeGet_spec env w0 s3bkt.Namespace s3bkt.Name with ⟨e, h⟩ | ⟨o, _, _, _, _, h⟩
  · rw [h]
    exact guarded_log (fun e => e.isRemoveIO = true) w0 _ rfl
  · rw [h]
    exact guarded_trans (guarded_log (fun e => e.isRemoveIO = true) w0
      (.get s3bkt.Namespace s3bkt.Name none) rfl)
      (guarded_update (fun e => e.isRemoveIO = true) env _ _
        (fun r => by
          simp [Event.isRemoveIO, ContainsFinalizer, RemoveFinalizer]))

theorem removeAttempt_head (env : Env) (s3bkt : S3Bucket) (w0 : World) :
    ∃ r evs, (removeAttempt env s3bkt w0).1.trace =
      w0.trace ++ .get s3bkt.Namespace s3bkt.Name r :: evs := by
  unfold removeAttempt
  rcases storeGet_spec env w0 s3bkt.Namespace s3bkt.Name with ⟨e, h⟩ | ⟨o, _, _, _, _, h⟩
  · rw [h]
    exact ⟨some e, [], rfl⟩
  · rw [h]
    obtain ⟨ht, -⟩ := storeUpdate_spec env (w0.log (.get s3bkt.Namespace s3bkt.Name none))
      (RemoveFinalizer o s3BucketFinalizer)
    exact ⟨none, [.update (RemoveFinalizer o s3BucketFinalizer)
      (storeUpdate env (w0.log (.get s3bkt.Namespace s3bkt.Name none))
        (RemoveFinalizer o s3BucketFinalizer)).2], by simp only; rw [ht]; simp⟩

theorem removeAttempt_success (env : Env) (s3bkt : S3Bucket) (w0 w1 : World)
    (h : removeAttempt env s3bkt w0 = (w1, none)) :
    ∀ l, w1.finalizers = some l → s3BucketFinalizer ∉ l := by
  unfold removeAttempt at h
  rcases storeGet_spec env w0 s3bkt.Namespace s3bkt.Name with ⟨e, hg⟩ | ⟨o, _, _, _, _, hg⟩
  · rw [hg] at h; simp at h
  · rw [hg] at h
    simp only at h
    obtain ⟨-, -, -, hf⟩ := storeUpdate_spec env
      (w0.log (.get s3bkt.Namespace s3bkt.Name none)) (RemoveFinalizer o s3BucketFinalizer)
    rw [h] at hf
    obtain ⟨cur, -, -, -, hrel, hkeep⟩ := hf rfl
    intro l hl
    cases hr : (RemoveFinalizer o s3BucketFinalizer).isReleased with
    | true =>
      have := hrel hr
      simp only at this
      simp [World.finalizers, this] at hl
    | false =>
      have := hkeep hr
      simp only at this
      simp only [World.finalizers, this, Option.map_some', Option.some.injEq] at hl
      rw [← hl]
      simp [RemoveFinalizer]

/-- What `removeFinalizer` does: it starts with a fetch; it emits only fetches and
updates with objects that lack the finalizer; config maps are kept; the stored
finalizer set is kept unless an update succeeded; on success no stored object carries
the finalizer (the object lacks it, or the store has removed the object). -/
theorem removeFinalizer_spec (env : Env) (w : World) (s3bkt : S3Bucket) :
    ∃ r evs, (removeFinalizer env w s3bkt).1.trace =
        w.trace ++ .get s3bkt.Namespace s3bkt.Name r :: evs ∧
      (∀ x ∈ evs, x.isRemoveIO = true) ∧
      (removeFinalizer env w s3bkt).1.cms = w.cms ∧
      ((∀ x ∈ evs, x.isUpdateOk = false) →
        (removeFinalizer env w s3bkt).1.finalizers = w.finalizers) ∧
      ((removeFinalizer env w s3bkt).2 = none →
        ∀ l, (removeFinalizer env w s3bkt).1.finalizers = some l → s3BucketFinalizer ∉ l) := by
  unfold removeFinalizer
  obtain ⟨evs, ht, hk, hc, hf⟩ :=
    retry_preserves (Guarded (fun e => e.isRemoveIO = true)) (guarded_refl _)
      (fun _ _ _ => guarded_trans) (removeAttempt env s3bkt) (removeAttempt_guarded env s3bkt)
      defaultBackoffSteps w
  obtain ⟨tl, htl⟩ := retry_first (removeAttempt env s3bkt)
    (fun w0 => by
      obtain ⟨r, evs, h⟩ := removeAttempt_head env s3bkt w0
      exact ⟨_, h⟩) 3 w
  obtain ⟨r, hd, hhd⟩ := removeAttempt_head env s3bkt w
  have hev : evs = .get s3bkt.Namespace s3bkt.Name r :: (hd ++ tl) := by
    have h1 : w.trace ++ evs = w.trace ++ (.get s3bkt.Namespace s3bkt.Name r :: (hd ++ tl)) := by
      rw [← ht]
      change (RetryOnConflict (3 + 1) _ _).1.trace = _
      rw [htl, hhd]; simp
    exact List.append_cancel_left h1
  subst hev
  refine ⟨r, hd ++ tl, ht, fun x hx => hk x (List.mem_cons_of_mem _ hx), hc, ?_, ?_⟩
  · intro h
    apply hf
    intro x hx
    rcases List.mem_cons.mp hx with rfl | hx
    · rfl
    · exact h x hx
  · intro hres
    obtain ⟨w0, hw0⟩ := retry_success (removeAttempt env s3bkt) 3 w hres
    exact removeAttempt_success env s3bkt w0 _ hw0

theorem deleteOk_iff (r : Option Err) :
    deleteOk r = true ↔ r = none ∨ r = some (.aws ErrCodeNoSuchBucket) := by
  cases r with
  | none => simp [deleteOk]
  | some e => cases e <;> simp [deleteOk]

theorem isStatusIO_isUpdate (st : String) (x : Event) (h : x.isStatusIO st = true) :
    x.isUpdate = false := by
  cases x <;> simp_all [Event.isStatusIO, Event.isUpdate]

/-- A deletion pass that stops at a failed delete or wait, then writes ERROR. -/
theorem delete_error_case (w : World) (res : World × Option Err) (su1 mid su2 : List Event)
    (hk1 : ∀ e ∈ su1, e.isStatusIO DELETING_STATE = true)
    (hk2 : ∀ e ∈ su2, e.isStatusIO ERROR_STATE = true)
    (hmid : ∀ e ∈ mid, e.isUpdate = false)
    (htr : res.1.trace = w.trace ++
      (Event.setState DELETING_STATE :: su1 ++ mid ++ Event.setState ERROR_STATE :: su2))
    (hfin : res.1.finalizers = w.finalizers) : FinalizerGuard w res := by
  refine ⟨_, htr, ?_, fun _ => hfin⟩
  intro pre x post h hx
  refine (not_split (fun y => y.isUpdate = true) _ pre x post ?_ hx h).elim
  intro y hy
  simp only [List.cons_append, List.mem_cons, List.mem_append] at hy
  rcases hy with rfl | (h | h) | rfl | h
  · simp [Event.isUpdate]
  · simp [isStatusIO_isUpdate _ _ (hk1 y h)]
  · simp [hmid y h]
  · simp [Event.isUpdate]
  · simp [isStatusIO_isUpdate _ _ (hk2 y h)]

theorem deleteResource_finalizerGuard (env : Env) (w : World) (s3bkt : S3Bucket) :
    FinalizerGuard w (DeleteResource env w s3bkt) := by
  unfold DeleteResource
  by_cases hc : ContainsFinalizer s3bkt s3BucketFinalizer = true
  case neg =>
    simp only [hc]
    exact ⟨[], by simp, by simp, fun _ => rfl⟩
  case pos =>
    simp only [hc, Bool.not_true, Bool.false_eq_true, if_false]
    obtain ⟨su1, ht1, hk1, hf1, -⟩ := updateBucketStatus_spec env w s3bkt DELETING_STATE
    obtain ⟨hP1, hP2, hP3⟩ :=
      performCleanup_spec env (updateBucketStatus env w s3bkt DELETING_STATE).1 s3bkt
    generalize (updateBucketStatus env w s3bkt DELETING_STATE).1 = w1 at *
    generalize env.fault w1.trace.length = d at *
    cases hd : deleteOk d with
    | false =>
      obtain ⟨hw, hr⟩ := hP1 hd
      rcases hpc : performCleanup env w1 s3bkt with ⟨w2, _ | e2⟩
      · rw [hpc] at hr; simp at hr
      · rw [hpc] at hw
        simp only at hw ⊢
        subst hw
        obtain ⟨su2, ht2, hk2, hf2, -⟩ := updateBucketStatus_spec env
          (w1.log (.deleteBucket s3bkt.Spec.Name d)) s3bkt ERROR_STATE
        refine delete_error_case w _ su1
          [.deleteBucket s3bkt.Spec.Name d] su2 hk1 hk2
          (by simp [Event.isUpdate]) ?_ ?_
        · simp only [ht2, log_trace, ht1]; simp
        · simp only [hf2]; exact hf1
    | true =>
      cases ht : env.fault (w1.trace.length + 1) with
      | some e =>
        obtain ⟨hw, hr⟩ := hP2 hd e ht
        rcases hpc : performCleanup env w1 s3bkt with ⟨w2, _ | e2⟩
        · rw [hpc] at hr; simp at hr
        · rw [hpc] at hw
          simp only at hw ⊢
          subst hw
          obtain ⟨su2, ht2, hk2, hf2, -⟩ := updateBucketStatus_spec env
            ((w1.log (.deleteBucket s3bkt.Spec.Name d)).log
              (.waitUntilBucketNotExists s3bkt.Spec.Name (some e))) s3bkt ERROR_STATE
          refine delete_error_case w _ su1
            [.deleteBucket s3bkt.Spec.Name d,
             .waitUntilBucketNotExists s3bkt.Spec.Name (some e)] su2 hk1 hk2
            (by simp [Event.isUpdate]) ?_ ?_
          · simp only [ht2, log_trace, ht1]; simp
          · simp only [hf2]; exact hf1
      | none =>
        rw [hP3 hd ht]
        simp only
        obtain ⟨-, ho4, rc, rest, ht4, hrest⟩ := deleteBucketConfigMap_spec env
          ((w1.log (.deleteBucket s3bkt.Spec.Name d)).log
            (.waitUntilBucketNotExists s3bkt.Spec.Name none)) s3bkt
        generalize (deleteBucketConfigMap env
          ((w1.log (.deleteBucket s3bkt.Spec.Name d)).log
            (.waitUntilBucketNotExists s3bkt.Spec.Name none)) s3bkt).1 = w4 at *
        obtain ⟨rg, ev5, ht5, hk5, -, hf5, -⟩ := removeFinalizer_spec env w4 s3bkt
        have hres : ∀ p : World × Option Err,
            (match p with
              | (w3, some e) => (w3, some (Err.wrap "failed to remove finalizer" e))
              | (w3, none) => (w3, none)).1 = p.1 := by
          rintro ⟨w3, _ | e⟩ <;> rfl
        have htr : (removeFinalizer env w4 s3bkt).1.trace = w.trace ++
            ((Event.setState DELETING_STATE :: su1 ++
              [.deleteBucket s3bkt.Spec.Name d,
               .waitUntilBucketNotExists s3bkt.Spec.Name none,
               .cmGet s3bkt.Namespace (configMapName s3bkt.Name) rc] ++ rest) ++
             (.get s3bkt.Namespace s3bkt.Name rg :: ev5)) := by
          simp only [ht5, ht4, log_trace, ht1]; simp
        refine ⟨_, by rw [hres]; exact htr, ?_, ?_⟩
        · intro pre x post h hx
          have hfree : ∀ y ∈ Event.setState DELETING_STATE :: su1 ++
              [.deleteBucket s3bkt.Spec.Name d,
               .waitUntilBucketNotExists s3bkt.Spec.Name none,
               .cmGet s3bkt.Namespace (configMapName s3bkt.Name) rc] ++ rest,
              ¬ y.isUpdate = true := by
            intro y hy
            simp only [List.cons_append, List.mem_cons, List.mem_append, List.not_mem_nil,
              or_false] at hy
            rcases hy with rfl | ((h | rfl | rfl | rfl) | h)
            · simp [Event.isUpdate]
            · simp [isStatusIO_isUpdate _ _ (hk1 y h)]
            · simp [Event.isUpdate]
            · simp [Event.isUpdate]
            · simp [Event.isUpdate]
            · obtain ⟨cm, r2, rfl⟩ := hrest y h
              simp [Event.isUpdate]
          obtain ⟨m, hm, hm2⟩ :=
            split_after (fun y => y.isUpdate = true) _ _ pre x post hfree hx h
          have hxin : x ∈ Event.get s3bkt.Namespace s3bkt.Name rg :: ev5 := by
            rw [hm2]; simp
          refine ⟨⟨s3bkt.Spec.Name, d, by rw [hm]; simp,
              (deleteOk_iff _).mp hd⟩,
            ⟨s3bkt.Spec.Name, by rw [hm]; simp⟩,
            ⟨s3bkt.Namespace, configMapName s3bkt.Name, rc, by rw [hm]; simp⟩, ?_⟩
          rintro o r rfl
          rcases List.mem_cons.mp hxin with h | h
          · cases h
          · simpa [Event.isRemoveIO] using hk5 _ h
        · intro h
          rw [hres, hf5 (fun y hy => h y (by simp [hy]))]
          simp only [World.finalizers, ho4, log_obj]
          exact hf1

theorem isUpdateOk_of_isUpdate (x : Event) (h : x.isUpdate = false) : x.isUpdateOk = false := by
  cases x <;> simp_all [Event.isUpdate, Event.isUpdateOk]

/-- C1. Finalizer invariant of the deletion workflow: for every outcome of the
collaborators, every `r.Update` call that `DeleteResource` makes (the write that
removes the finalizer, successful or not) carries an object without the finalizer and
comes after (a) a bucket delete that returned success or `NoSuchBucket`, (b) a
successful wait for the bucket to be gone and (c) the config map lookup of the cleanup;
the stored finalizer set is unchanged unless such a write succeeded; and in every
execution in which (a), (b), (c) did not all happen there is no `r.Update` call at all
and the stored finalizer set is unchanged. -/
theorem deleteResource_finalizer_invariant (env : Env) (w : World) (s3bkt : S3Bucket) :
    ∃ evs, (DeleteResource env w s3bkt).1.trace = w.trace ++ evs ∧
      (∀ pre x post, evs = pre ++ x :: post → x.isUpdate = true →
        (∃ b r, Event.deleteBucket b r ∈ pre ∧
          (r = none ∨ r = some (.aws ErrCodeNoSuchBucket))) ∧
        (∃ b, Event.waitUntilBucketNotExists b none ∈ pre) ∧
        (∃ ns n r, Event.cmGet ns n r ∈ pre) ∧
        (∀ o r, x = .update o r → ContainsFinalizer o s3BucketFinalizer = false)) ∧
      ((∀ x ∈ evs, x.isUpdateOk = false) →
        (DeleteResource env w s3bkt).1.finalizers = w.finalizers) ∧
      (¬ ((∃ b r, Event.deleteBucket b r ∈ evs ∧
            (r = none ∨ r = some (.aws ErrCodeNoSuchBucket))) ∧
          (∃ b, Event.waitUntilBucketNotExists b none ∈ evs) ∧
          (∃ ns n r, Event.cmGet ns n r ∈ evs)) →
        (∀ x ∈ evs, x.isUpdate = false) ∧
        (DeleteResource env w s3bkt).1.finalizers = w.finalizers) := by
  obtain ⟨evs, ht, h1, h2⟩ := deleteResource_finalizerGuard env w s3bkt
  refine ⟨evs, ht, h1, h2, ?_⟩
  intro hnot
  have hno : ∀ x ∈ evs, x.isUpdate = false := by
    intro x hx
    by_contra hxu
    obtain ⟨pre, post, hsplit⟩ := List.append_of_mem hx
    obtain ⟨⟨b, r, hb, hr⟩, ⟨b2, hb2⟩, ⟨ns, n, r3, hc⟩, -⟩ :=
      h1 pre x post hsplit (by simpa using hxu)
    exact hnot ⟨⟨b, r, by rw [hsplit]; simp [hb], hr⟩, ⟨b2, by rw [hsplit]; simp [hb2]⟩,
      ⟨ns, n, r3, by rw [hsplit]; simp [hc]⟩⟩
  exact ⟨hno, h2 (fun x hx => isUpdateOk_of_isUpdate x (hno x hx))⟩

/-- C3 (as amended). Non-empty delete blocks finalizer removal: when the object
carries the finalizer and the external bucket delete fails with `BucketNotEmpty`,
`DeleteResource` emits the DELETING status write, the failed delete and an ERROR status
write and nothing else; it returns an error; the stored finalizer set is unchanged; and
when a status update of the ERROR write succeeds the stored state is ERROR. -/
theorem deleteResource_bucket_not_empty (env : Env) (w : World) (s3bkt : S3Bucket)
    (hfin : ContainsFinalizer s3bkt s3BucketFinalizer = true)
    (hne : env.fault (updateBucketStatus env w s3bkt DELETING_STATE).1.trace.length =
      some (.aws "BucketNotEmpty")) :
    ∃ su1 su2, (DeleteResource env w s3bkt).1.trace = w.trace ++
        (Event.setState DELETING_STATE :: su1 ++
          Event.deleteBucket s3bkt.Spec.Name (some (.aws "BucketNotEmpty")) ::
          Event.setState ERROR_STATE :: su2) ∧
      (∀ x ∈ su1, x.isStatusIO DELETING_STATE = true) ∧
      (∀ x ∈ su2, x.isStatusIO ERROR_STATE = true) ∧
      (DeleteResource env w s3bkt).2 = some (.wrap "cleanup failed"
        (.wrap "failed to delete S3 bucket"
          (.wrap "bucket is not empty, cannot delete" (.aws "BucketNotEmpty")))) ∧
      (DeleteResource env w s3bkt).1.finalizers = w.finalizers ∧
      ((∃ o, Event.statusUpdate o none ∈ su2) →
        (DeleteResource env w s3bkt).1.state = some ERROR_STATE) := by
  obtain ⟨su1, ht1, hk1, hf1, -⟩ := updateBucketStatus_spec env w s3bkt DELETING_STATE
  generalize hw1 : (updateBucketStatus env w s3bkt DELETING_STATE).1 = w1 at *
  obtain ⟨su2, ht2, hk2, hf2, -, hs2, hq2⟩ := updateBucketStatus_spec env
    (w1.log (.deleteBucket s3bkt.Spec.Name (some (.aws "BucketNotEmpty")))) s3bkt ERROR_STATE
  have hpc : performCleanup env w1 s3bkt =
      (w1.log (.deleteBucket s3bkt.Spec.Name (some (.aws "BucketNotEmpty"))),
       some (.wrap "failed to delete S3 bucket"
          (.wrap "bucket is not empty, cannot delete" (.aws "BucketNotEmpty")))) := by
    simp [performCleanup, deleteS3Bucket, s3DeleteBucket, hne, ErrCodeNoSuchBucket]
  have hdr : DeleteResource env w s3bkt =
      ((updateBucketStatus env
        (w1.log (.deleteBucket s3bkt.Spec.Name (some (.aws "BucketNotEmpty")))) s3bkt
        ERROR_STATE).1,
       some (.wrap "cleanup failed" (.wrap "failed to delete S3 bucket"
          (.wrap "bucket is not empty, cannot delete" (.aws "BucketNotEmpty"))))) := by
    unfold DeleteResource
    simp only [hfin, Bool.not_true, Bool.false_eq_true, if_false]
    rw [hw1, hpc]
  rw [hdr]
  refine ⟨su1, su2, ?_, hk1, hk2, rfl, ?_, ?_⟩
  · simp only [ht2, log_trace]; rw [ht1]; simp
  · simp only [hf2]; exact hf1
  · rintro ⟨o, ho⟩
    exact (hs2 (hq2 o ho)).1

/-- Witness for C3: the delete call of a deletion pass over `log-archive` reports a
non-empty bucket. -/
theorem deleteResource_bucket_not_empty_witness :
    ContainsFinalizer logArchiveDeleting s3BucketFinalizer = true ∧
    (faultAt 3 (.aws "BucketNotEmpty")).fault
      (updateBucketStatus (faultAt 3 (.aws "BucketNotEmpty")) (worldOf logArchiveDeleting)
        logArchiveDeleting DELETING_STATE).1.trace.length = some (.aws "BucketNotEmpty") ∧
    (DeleteResource (faultAt 3 (.aws "BucketNotEmpty")) (worldOf logArchiveDeleting)
      logArchiveDeleting).1.finalizers = (worldOf logArchiveDeleting).finalizers := by
  obtain ⟨_, _, _, _, _, _, h, _⟩ :=
    deleteResource_bucket_not_empty (faultAt 3 (.aws "BucketNotEmpty"))
      (worldOf logArchiveDeleting) logArchiveDeleting (by decide) (by decide)
  exact ⟨by decide, by decide, h⟩

/-- Counterexample to C3 as stated: the bucket delete of a deletion pass over
`log-archive` fails with `BucketNotEmpty` and no other call fails; the pass returns an
error and keeps the finalizer, but the stored state after the pass is ERROR, not
DELETING. -/
theorem deleteResource_bucket_not_empty_counterexample :
    (faultAt 3 (.aws "BucketNotEmpty")).fault
      (updateBucketStatus (faultAt 3 (.aws "BucketNotEmpty")) (worldOf logArchiveDeleting)
        logArchiveDeleting DELETING_STATE).1.trace.length = some (.aws "BucketNotEmpty") ∧
    (DeleteResource (faultAt 3 (.aws "BucketNotEmpty")) (worldOf logArchiveDeleting)
      logArchiveDeleting).1.state = some ERROR_STATE ∧
    ¬ ((DeleteResource (faultAt 3 (.aws "BucketNotEmpty")) (worldOf logArchiveDeleting)
          logArchiveDeleting).2 ≠ none ∧
       (DeleteResource (faultAt 3 (.aws "BucketNotEmpty")) (worldOf logArchiveDeleting)
          logArchiveDeleting).1.state = some DELETING_STATE ∧
       (DeleteResource (faultAt 3 (.aws "BucketNotEmpty")) (worldOf logArchiveDeleting)
          logArchiveDeleting).1.finalizers = some [s3BucketFinalizer]) := by
  decide

/-- C9. Not-found delete is success: `deleteS3Bucket` makes exactly one call, the
external delete of the bucket `Spec.Name`, and returns no error exactly when that call
succeeded or failed with the error code `NoSuchBucket`; for every other failure of the
call it returns an error. -/
theorem deleteS3Bucket_not_found_is_success (env : Env) (w : World) (s3bkt : S3Bucket) :
    (deleteS3Bucket env w s3bkt).1 =
      w.log (.deleteBucket s3bkt.Spec.Name (env.fault w.trace.length)) ∧
    (env.fault w.trace.length = none → (deleteS3Bucket env w s3bkt).2 = none) ∧
    (env.fault w.trace.length = some (.aws ErrCodeNoSuchBucket) →
      (deleteS3Bucket env w s3bkt).2 = none) ∧
    (∀ e, env.fault w.trace.length = some e → e ≠ .aws ErrCodeNoSuchBucket →
      (deleteS3Bucket env w s3bkt).2 ≠ none) := by
  obtain ⟨h1, h2⟩ := deleteS3Bucket_spec env w s3bkt
  refine ⟨h1, ?_, ?_, ?_⟩
  · intro h
    exact h2.mpr ((deleteOk_iff _).mpr (Or.inl h))
  · intro h
    exact h2.mpr ((deleteOk_iff _).mpr (Or.inr h))
  · intro e he hne hres
    rcases (deleteOk_iff _).mp (h2.mp hres) with h | h
    · rw [he] at h; simp at h
    · rw [he] at h
      exact hne (Option.some.inj h)

/-- C10. Best-effort artifact cleanup: when the object carries the finalizer, the
external bucket delete succeeded (or reported `NoSuchBucket`) and the wait for the
bucket to be gone succeeded, then, whatever the config map lookup and delete answer,
`performCleanup` returns no error after the lookup and at most delete calls on the
config map, and `DeleteResource` goes on to `removeFinalizer`: its next call is the
fetch of the object, its result is that of `removeFinalizer`, and when it returns no
error no stored object carries the finalizer any more: the store holds the object
without the token, or has removed the object because that was its last finalizer. -/
theorem performCleanup_best_effort (env : Env) (w : World) (s3bkt : S3Bucket)
    (hfin : ContainsFinalizer s3bkt s3BucketFinalizer = true)
    (hdel : env.fault (updateBucketStatus env w s3bkt DELETING_STATE).1.trace.length = none ∨
      env.fault (updateBucketStatus env w s3bkt DELETING_STATE).1.trace.length =
        some (.aws ErrCodeNoSuchBucket))
    (hwait : env.fault ((updateBucketStatus env w s3bkt DELETING_STATE).1.trace.length + 1)
      = none) :
    (performCleanup env (updateBucketStatus env w s3bkt DELETING_STATE).1 s3bkt).2 = none ∧
    (∃ rd rc rest,
      (performCleanup env (updateBucketStatus env w s3bkt DELETING_STATE).1 s3bkt).1.trace =
        (updateBucketStatus env w s3bkt DELETING_STATE).1.trace ++
          Event.deleteBucket s3bkt.Spec.Name rd ::
          Event.waitUntilBucketNotExists s3bkt.Spec.Name none ::
          Event.cmGet s3bkt.Namespace (configMapName s3bkt.Name) rc :: rest ∧
      ∀ x ∈ rest, ∃ cm r, x = Event.cmDelete cm r) ∧
    (∃ rg evs, (DeleteResource env w s3bkt).1.trace =
      (performCleanup env (updateBucketStatus env w s3bkt DELETING_STATE).1 s3bkt).1.trace ++
        Event.get s3bkt.Namespace s3bkt.Name rg :: evs) ∧
    (DeleteResource env w s3bkt).2 =
      (removeFinalizer env
        (performCleanup env (updateBucketStatus env w s3bkt DELETING_STATE).1 s3bkt).1
        s3bkt).2.map (Err.wrap "failed to remove finalizer") ∧
    ((DeleteResource env w s3bkt).2 = none →
      ∀ l, (DeleteResource env w s3bkt).1.finalizers = some l → s3BucketFinalizer ∉ l) := by
  have hdr : DeleteResource env w s3bkt =
      match performCleanup env (updateBucketStatus env w s3bkt DELETING_STATE).1 s3bkt with
      | (w2, some e) =>
        ((updateBucketStatus env w2 s3bkt ERROR_STATE).1, some (.wrap "cleanup failed" e))
      | (w2, none) =>
        match removeFinalizer env w2 s3bkt with
        | (w3, some e) => (w3, some (.wrap "failed to remove finalizer" e))
        | (w3, none) => (w3, none) := by
    unfold DeleteResource
    simp only [hfin, Bool.not_true, Bool.false_eq_true, if_false]
  obtain ⟨-, -, hP3⟩ :=
    performCleanup_spec env (updateBucketStatus env w s3bkt DELETING_STATE).1 s3bkt
  generalize (updateBucketStatus env w s3bkt DELETING_STATE).1 = w1 at *
  have hpc := hP3 ((deleteOk_iff _).mpr hdel) hwait
  obtain ⟨-, -, rc, rest, ht4, hrest⟩ := deleteBucketConfigMap_spec env
    ((w1.log (.deleteBucket s3bkt.Spec.Name (env.fault w1.trace.length))).log
      (.waitUntilBucketNotExists s3bkt.Spec.Name none)) s3bkt
  rw [hpc] at hdr ⊢
  simp only at hdr ⊢
  generalize (deleteBucketConfigMap env
    ((w1.log (.deleteBucket s3bkt.Spec.Name (env.fault w1.trace.length))).log
      (.waitUntilBucketNotExists s3bkt.Spec.Name none)) s3bkt).1 = w4 at *
  obtain ⟨rg, ev5, ht5, -, -, -, hs5⟩ := removeFinalizer_spec env w4 s3bkt
  have hdr2 : DeleteResource env w s3bkt = ((removeFinalizer env w4 s3bkt).1,
      (removeFinalizer env w4 s3bkt).2.map (Err.wrap "failed to remove finalizer")) := by
    rw [hdr]
    rcases removeFinalizer env w4 s3bkt with ⟨w5, _ | e5⟩ <;> rfl
  rw [hdr2]
  refine ⟨trivial, ⟨env.fault w1.trace.length, rc, rest, ?_, hrest⟩, ⟨rg, ev5, ht5⟩, rfl, ?_⟩
  · rw [ht4]; simp
  · intro h
    apply hs5
    simpa using h

/-- Witness for C10: in a deletion pass over `log-archive` the bucket delete and the
wait succeed and the config map lookup fails; the pass returns no error and the store
removes the object, whose last finalizer was cleared. -/
theorem performCleanup_best_effort_witness :
    ContainsFinalizer logArchiveDeleting s3BucketFinalizer = true ∧
    (faultAt 5 (.other "store unavailable")).fault
      ((updateBucketStatus (faultAt 5 (.other "store unavailable")) (worldOf logArchiveDeleting)
        logArchiveDeleting DELETING_STATE).1.trace.length + 1) = none ∧
    (performCleanup (faultAt 5 (.other "store unavailable"))
      (updateBucketStatus (faultAt 5 (.other "store unavailable")) (worldOf logArchiveDeleting)
        logArchiveDeleting DELETING_STATE).1 logArchiveDeleting).2 = none ∧
    (DeleteResource (faultAt 5 (.other "store unavailable")) (worldOf logArchiveDeleting)
      logArchiveDeleting).2 = none ∧
    (DeleteResource (faultAt 5 (.other "store unavailable")) (worldOf logArchiveDeleting)
      logArchiveDeleting).1.obj = none :=
  ⟨by decide, by decide,
    (performCleanup_best_effort (faultAt 5 (.other "store unavailable"))
      (worldOf logArchiveDeleting) logArchiveDeleting (by decide) (Or.inl (by decide))
      (by decide)).1, by decide, by decide⟩

/-! ## The reconciler -/

theorem AddFinalizer_absent (o : S3Bucket) (f : String) (h : ContainsFinalizer o f = false) :
    AddFinalizer o f = { o with Finalizers := o.Finalizers ++ [f] } := by
  unfold ContainsFinalizer at h
  unfold AddFinalizer
  rw [if_neg (by rw [h]; simp)]

theorem addAttempt_guarded (env : Env) (s3bkt : S3Bucket) (w0 : World) :
    Guarded (fun e => e.isAddIO = true) w0 (addAttempt env s3bkt w0).1 := by
  unfold addAttempt
  rcases storeGet_spec env w0 s3bkt.Namespace s3bkt.Name with ⟨e, h⟩ | ⟨o, _, _, _, _, h⟩
  · rw [h]
    exact guarded_log (fun e => e.isAddIO = true) w0 _ rfl
  · rw [h]
    simp only
    by_cases hc : ContainsFinalizer o s3BucketFinalizer = true
    · simp only [hc, Bool.not_true, Bool.false_eq_true, if_false]
      exact guarded_log (fun e => e.isAddIO = true) w0 _ rfl
    · simp only [hc, Bool.not_false, if_true]
      exact guarded_trans (guarded_log (fun e => e.isAddIO = true) w0
        (.get s3bkt.Namespace s3bkt.Name none) rfl)
        (guarded_update (fun e => e.isAddIO = true) env _ _
          (fun r => by
            simp only [Bool.not_eq_true] at hc
            rw [AddFinalizer_absent _ _ hc]
            simp [Event.isAddIO, ContainsFinalizer]))

/-- An update that is not made to fail, of the stored object at its current version,
is accepted: the object is replaced, or removed when it is released by the write. -/
theorem storeUpdate_accepted (env : Env) (w : World) (o cur : S3Bucket)
    (hf : env.fault w.trace.length = none) (hobj : w.obj = some cur)
    (hns : cur.Namespace = o.Namespace) (hname : cur.Name = o.Name)
    (hv : cur.ResourceVersion = o.ResourceVersion) :
    storeUpdate env w o =
      ({ w with obj := (if o.isReleased then none else
          some { o with Status := cur.Status,
                        ResourceVersion := cur.ResourceVersion + 1 }) }.log
        (.update o none), none) := by
  unfold storeUpdate
  simp only [hf, hobj, hns, hname, hv, and_self, if_true]
  split <;> rfl

/-- An object to which the finalizer has just been added is not one the store
removes. -/
theorem AddFinalizer_not_released (o : S3Bucket)
    (h : ContainsFinalizer o s3BucketFinalizer = false) :
    (AddFinalizer o s3BucketFinalizer).isReleased = false := by
  rw [AddFinalizer_absent _ _ h]
  simp [S3Bucket.isReleased]

/-- An attempt of `addFinalizer` leaves the stored state as it is. -/
theorem addAttempt_state (env : Env) (s3bkt : S3Bucket) (w0 : World) :
    (addAttempt env s3bkt w0).1.state = w0.state := by
  unfold addAttempt
  rcases storeGet_spec env w0 s3bkt.Namespace s3bkt.Name with ⟨e, hg⟩ | ⟨o, ho, _, _, _, hg⟩
  · rw [hg]; rfl
  · rw [hg]
    simp only
    by_cases hc : ContainsFinalizer o s3BucketFinalizer = true
    · simp only [hc, Bool.not_true, Bool.false_eq_true, if_false]; rfl
    · simp only [hc, Bool.not_false, if_true]
      simp only [Bool.not_eq_true] at hc
      obtain ⟨-, -, hne, hf⟩ := storeUpdate_spec env
        (w0.log (.get s3bkt.Namespace s3bkt.Name none)) (AddFinalizer o s3BucketFinalizer)
      cases hr : (storeUpdate env (w0.log (.get s3bkt.Namespace s3bkt.Name none))
          (AddFinalizer o s3BucketFinalizer)).2 with
      | some e =>
        have := hne (by rw [hr]; simp)
        simp [World.state, this]
      | none =>
        obtain ⟨cur, hcur, -, -, -, hkeep⟩ := hf hr
        have hst := hkeep (AddFinalizer_not_released o hc)
        rw [log_obj] at hcur
        simp [World.state, hst, hcur]

theorem addAttempt_success (env : Env) (s3bkt : S3Bucket) (w0 w1 : World)
    (h : addAttempt env s3bkt w0 = (w1, none)) :
    ∃ l, w1.finalizers = some l ∧ s3BucketFinalizer ∈ l := by
  unfold addAttempt at h
  rcases storeGet_spec env w0 s3bkt.Namespace s3bkt.Name with ⟨e, hg⟩ | ⟨o, ho, _, _, _, hg⟩
  · rw [hg] at h; simp at h
  · rw [hg] at h
    simp only at h
    by_cases hc : ContainsFinalizer o s3BucketFinalizer = true
    · simp only [hc, Bool.not_true, Bool.false_eq_true, if_false] at h
      have hw : w1 = w0.log (.get s3bkt.Namespace s3bkt.Name none) := (Prod.mk.inj h).1.symm
      subst hw
      refine ⟨o.Finalizers, by simp [World.finalizers, ho], ?_⟩
      simpa [ContainsFinalizer] using hc
    · simp only [hc, Bool.not_false, if_true] at h
      simp only [Bool.not_eq_true] at hc
      obtain ⟨-, -, -, hf⟩ := storeUpdate_spec env
        (w0.log (.get s3bkt.Namespace s3bkt.Name none)) (AddFinalizer o s3BucketFinalizer)
      rw [h] at hf
      obtain ⟨cur, -, -, -, -, hkeep⟩ := hf rfl
      have hst := hkeep (AddFinalizer_not_released o hc)
      simp only at hst
      refine ⟨_, by rw [World.finalizers, hst]; rfl, ?_⟩
      rw [AddFinalizer_absent _ _ hc]
      simp

/-- When neither the fetch nor the update is made to fail, the first attempt of
`addFinalizer` on a stored object without the finalizer succeeds. -/
theorem addAttempt_no_fault (env : Env) (s3bkt o : S3Bucket) (w0 : World)
    (hobj : w0.obj = some o) (hns : o.Namespace = s3bkt.Namespace) (hname : o.Name = s3bkt.Name)
    (hfin : ContainsFinalizer o s3BucketFinalizer = false)
    (h1 : env.fault w0.trace.length = none) (h2 : env.fault (w0.trace.length + 1) = none) :
    (addAttempt env s3bkt w0).2 = none := by
  have hsa : addAttempt env s3bkt w0 = storeUpdate env
      (w0.log (.get s3bkt.Namespace s3bkt.Name none)) (AddFinalizer o s3BucketFinalizer) := by
    simp [addAttempt, storeGet, h1, hobj, hns, hname, hfin]
  rw [hsa, storeUpdate_accepted env (w0.log (.get s3bkt.Namespace s3bkt.Name none))
    (AddFinalizer o s3BucketFinalizer) o (by simpa using h2) hobj
    (by rw [AddFinalizer_absent _ _ hfin]) (by rw [AddFinalizer_absent _ _ hfin])
    (by rw [AddFinalizer_absent _ _ hfin])]

/-- What `addFinalizer` does: it emits only fetches and updates with objects that
carry the finalizer; config maps and the stored state are kept; on success the stored
object carries the finalizer. -/
theorem addFinalizer_spec (env : Env) (w : World) (s3bkt : S3Bucket) :
    ∃ evs, (addFinalizer env w s3bkt).1.trace = w.trace ++ evs ∧
      (∀ x ∈ evs, x.isAddIO = true) ∧
      (addFinalizer env w s3bkt).1.cms = w.cms ∧
      (addFinalizer env w s3bkt).1.state = w.state ∧
      ((addFinalizer env w s3bkt).2 = none →
        ∃ l, (addFinalizer env w s3bkt).1.finalizers = some l ∧ s3BucketFinalizer ∈ l) := by
  unfold addFinalizer
  obtain ⟨evs, ht, hk, hc, -⟩ :=
    retry_preserves (Guarded (fun e => e.isAddIO = true)) (guarded_refl _)
      (fun _ _ _ => guarded_trans) (addAttempt env s3bkt) (addAttempt_guarded env s3bkt)
      defaultBackoffSteps w
  have hs := retry_preserves (fun a b => b.state = a.state) (fun _ => rfl)
    (fun _ _ _ h1 h2 => h2.trans h1) (addAttempt env s3bkt) (addAttempt_state env s3bkt)
    defaultBackoffSteps w
  refine ⟨evs, ht, hk, hc, hs, ?_⟩
  intro hres
  obtain ⟨w0, hw0⟩ := retry_success (addAttempt env s3bkt) 3 w hres
  exact addAttempt_success env s3bkt w0 _ hw0

theorem isAddIO_kinds (x : Event) (h : x.isAddIO = true) :
    x.isFinalizerIO = true ∧ x.isBucketCall = false ∧ x.isStatusUpdate = false ∧
      x.isArtifactCall = false := by
  cases x <;> simp_all [Event.isAddIO, Event.isFinalizerIO, Event.isBucketCall,
    Event.isStatusUpdate, Event.isArtifactCall]

/-- The fetch at the start of `Reconcile` when the store holds the object and the
call is not made to fail. -/
theorem storeGet_stored (env : Env) (w : World) (ns name : String) (o : S3Bucket)
    (hfetch : env.fault w.trace.length = none) (hobj : w.obj = some o)
    (hns : o.Namespace = ns) (hname : o.Name = name) :
    storeGet env w ns name = (w.log (.get ns name none), .ok o) := by
  simp [storeGet, hfetch, hobj, hns, hname]

/-- C2 (as amended). Finalizer bootstrap: for every fetched object that is not
deletion-requested and does not carry the finalizer, whatever its state, `Reconcile`
after the fetch only runs `addFinalizer`: every further call is a fetch of the object
or an `r.Update` with the finalizer added, so there is no external bucket call, no
status write and no config map call, and config maps and the stored state are
unchanged.  When `addFinalizer` returns no error the result is an immediate requeue
with no error and the stored object carries the finalizer; when it returns an error
`Reconcile` returns that error with an empty result; and it returns no error when the
fetch and the update of its first attempt are not made to fail. -/
theorem reconcile_finalizer_bootstrap (env : Env) (w : World) (ns name : String)
    (o : S3Bucket) (hfetch : env.fault w.trace.length = none) (hobj : w.obj = some o)
    (hns : o.Namespace = ns) (hname : o.Name = name) (hdel : o.DeletionTimestamp = none)
    (hfin : ContainsFinalizer o s3BucketFinalizer = false) :
    ∃ evs, (Reconcile env w ns name).1.trace = w.trace ++ Event.get ns name none :: evs ∧
      (∀ x ∈ evs, x.isFinalizerIO = true ∧ x.isBucketCall = false ∧
        x.isStatusUpdate = false ∧ x.isArtifactCall = false) ∧
      (∀ u r, Event.update u r ∈ evs → ContainsFinalizer u s3BucketFinalizer = true) ∧
      (Reconcile env w ns name).1.cms = w.cms ∧
      (Reconcile env w ns name).1.state = w.state ∧
      (Reconcile env w ns name).2.2 = (addFinalizer env (w.log (.get ns name none)) o).2 ∧
      ((Reconcile env w ns name).2.2 = none →
        (Reconcile env w ns name).2.1 = { Requeue := true, RequeueAfter := 0 } ∧
        ∃ l, (Reconcile env w ns name).1.finalizers = some l ∧ s3BucketFinalizer ∈ l) ∧
      ((Reconcile env w ns name).2.2 ≠ none →
        (Reconcile env w ns name).2.1 = Result.empty) ∧
      (env.fault (w.trace.length + 1) = none → env.fault (w.trace.length + 2) = none →
        (Reconcile env w ns name).2.2 = none) := by
  obtain ⟨evs, ht, hk, hc, hs, hok⟩ := addFinalizer_spec env (w.log (.get ns name none)) o
  have hrec : Reconcile env w ns name =
      ((addFinalizer env (w.log (.get ns name none)) o).1,
       (if (addFinalizer env (w.log (.get ns name none)) o).2 = none
          then { Requeue := true, RequeueAfter := 0 } else Result.empty),
       (addFinalizer env (w.log (.get ns name none)) o).2) := by
    unfold Reconcile
    rw [storeGet_stored env w ns name o hfetch hobj hns hname]
    simp only [hdel, Option.isSome_none, Bool.false_eq_true, if_false, hfin, Bool.not_false,
      if_true]
    rcases addFinalizer env (w.log (.get ns name none)) o with ⟨w2, _ | e⟩ <;> simp
  rw [hrec]
  refine ⟨evs, by rw [ht]; simp, fun x hx => isAddIO_kinds x (hk x hx), ?_, hc, hs, rfl, ?_,
    ?_, ?_⟩
  · intro u r hu
    simpa [Event.isAddIO] using hk _ hu
  · intro h
    simp only at h
    exact ⟨by simp [h], hok h⟩
  · intro h
    simp only at h
    simp [h]
  · intro h1 h2
    simp only
    unfold addFinalizer
    have ha := addAttempt_no_fault env o o (w.log (.get ns name none)) hobj rfl rfl hfin
      (by simpa using h1) (by simpa using h2)
    rcases hat : addAttempt env o (w.log (.get ns name none)) with ⟨w2, r⟩
    rw [hat] at ha
    simp only at ha
    subst ha
    exact congrArg Prod.snd (retry_first_success (addAttempt env o) 3 _ _ hat)

/-- Witness for C2: the first pass over the freshly created `log-archive`. -/
theorem reconcile_finalizer_bootstrap_witness :
    (worldOf logArchive).obj = some logArchive ∧
    ContainsFinalizer logArchive s3BucketFinalizer = false ∧
    (Reconcile noFault (worldOf logArchive) "default" "log-archive").2.2 = none := by
  obtain ⟨_, _, _, _, _, _, _, _, _, h⟩ :=
    reconcile_finalizer_bootstrap noFault (worldOf logArchive) "default" "log-archive"
      logArchive rfl rfl rfl rfl rfl (by decide)
  exact ⟨rfl, by decide, h rfl rfl⟩

/-- Counterexample to C2 as stated: the object is fetched, is not deletion-requested
and lacks the finalizer, and the `r.Update` of `addFinalizer` fails with an error that
is not a conflict; `Reconcile` returns that error with an empty result instead of an
immediate requeue, and the finalizer is not added. -/
theorem reconcile_finalizer_bootstrap_counterexample :
    (faultAt 2 (.other "etcd unavailable")).fault (worldOf logArchive).trace.length = none ∧
    (worldOf logArchive).obj = some logArchive ∧
    logArchive.DeletionTimestamp = none ∧
    ContainsFinalizer logArchive s3BucketFinalizer = false ∧
    (Reconcile (faultAt 2 (.other "etcd unavailable")) (worldOf logArchive) "default"
      "log-archive").2 = (Result.empty, some (.other "etcd unavailable")) ∧
    (Reconcile (faultAt 2 (.other "etcd unavailable")) (worldOf logArchive) "default"
      "log-archive").1.finalizers = some [] := by
  decide

/-- What the dispatch of `Reconcile` does on the two states of C4: for every fetched
object that is not deletion-requested and carries the finalizer, `Reconcile` runs
`CreateResource` (and returns its error with an empty result) when `status.state` is
empty; when the state is PENDING the switch has no case for it and the default branch
makes no further call and returns an empty result with no error. -/
theorem reconcile_dispatch_creation (env : Env) (w : World) (ns name : String)
    (o : S3Bucket) (hfetch : env.fault w.trace.length = none) (hobj : w.obj = some o)
    (hns : o.Namespace = ns) (hname : o.Name = name) (hdel : o.DeletionTimestamp = none)
    (hfin : ContainsFinalizer o s3BucketFinalizer = true) :
    (o.Status.State = "" →
      Reconcile env w ns name =
        ((CreateResource env (w.log (.get ns name none)) o).1, Result.empty,
         (CreateResource env (w.log (.get ns name none)) o).2)) ∧
    (o.Status.State = PENDING_STATE →
      Reconcile env w ns name = (w.log (.get ns name none), Result.empty, none)) := by
  have hrec : Reconcile env w ns name = dispatch env (w.log (.get ns name none)) o := by
    unfold Reconcile
    rw [storeGet_stored env w ns name o hfetch hobj hns hname]
    simp [hdel, hfin]
  rw [hrec]
  constructor
  · intro hs
    unfold dispatch
    simp only [hs, if_true]
    rcases CreateResource env (w.log (.get ns name none)) o with ⟨w1, _ | e⟩ <;> rfl
  · intro hs
    unfold dispatch
    rw [hs]
    simp [PENDING_STATE, CREATED_STATE, ERROR_STATE, CREATING_STATE, DELETING_STATE]

/-- The dispatch on `log-archive` with the finalizer and an empty state. -/
theorem reconcile_dispatch_creation_witness :
    ContainsFinalizer { logArchive with Finalizers := [s3BucketFinalizer] }
      s3BucketFinalizer = true ∧
    (Reconcile noFault (worldOf { logArchive with Finalizers := [s3BucketFinalizer] })
      "default" "log-archive").2.2 =
      (CreateResource noFault
        ((worldOf { logArchive with Finalizers := [s3BucketFinalizer] }).log
          (.get "default" "log-archive" none))
        { logArchive with Finalizers := [s3BucketFinalizer] }).2 :=
  ⟨by decide,
    congrArg (fun r => r.2.2)
      ((reconcile_dispatch_creation noFault
        (worldOf { logArchive with Finalizers := [s3BucketFinalizer] }) "default" "log-archive"
        { logArchive with Finalizers := [s3BucketFinalizer] } rfl rfl rfl rfl rfl
        (by decide)).1 rfl)⟩

/-- C4. The code at the failing input: `log-archive` carries the finalizer, is not
deletion-requested and has state PENDING ("pending creation" in `s3bucket_types.go`);
`Reconcile` makes the fetch and no other call and returns the empty result with no
error and no requeue, so the creation workflow (which starts with a CREATING status
write) is not run, the stored state stays PENDING, and the bucket is never created. -/
theorem reconcile_pending_not_created :
    ContainsFinalizer logArchivePending s3BucketFinalizer = true ∧
    logArchivePending.DeletionTimestamp = none ∧
    logArchivePending.Status.State = PENDING_STATE ∧
    (Reconcile noFault (worldOf logArchivePending) "default" "log-archive").1.trace =
      [.get "default" "log-archive" none] ∧
    (Reconcile noFault (worldOf logArchivePending) "default" "log-archive").1.state =
      some PENDING_STATE ∧
    (Reconcile noFault (worldOf logArchivePending) "default" "log-archive").2 =
      (Result.empty, none) ∧
    (Reconcile noFault (worldOf logArchivePending) "default" "log-archive").1 ≠
      (CreateResource noFault ((worldOf logArchivePending).log
        (.get "default" "log-archive" none)) logArchivePending).1 := by
  decide

/-- C7. Idempotent creation: for every fetched object that is not deletion-requested,
carries the finalizer and has `status.state = CREATED`, `Reconcile` returns the empty
result (no requeue) with no error, and the world after it is the world before it with
the fetch appended to the trace: no external bucket call, no status write, no config
map call and no finalizer write is made, and the store is unchanged. -/
theorem reconcile_created_noop (env : Env) (w : World) (ns name : String)
    (o : S3Bucket) (hfetch : env.fault w.trace.length = none) (hobj : w.obj = some o)
    (hns : o.Namespace = ns) (hname : o.Name = name) (hdel : o.DeletionTimestamp = none)
    (hfin : ContainsFinalizer o s3BucketFinalizer = true)
    (hstate : o.Status.State = CREATED_STATE) :
    Reconcile env w ns name = (w.log (.get ns name none), Result.empty, none) ∧
    (Reconcile env w ns name).1.trace = w.trace ++ [.get ns name none] ∧
    (Reconcile env w ns name).1.obj = w.obj ∧
    (Reconcile env w ns name).1.cms = w.cms ∧
    (Reconcile env w ns name).2.1.Requeue = false ∧
    (Reconcile env w ns name).2.1.RequeueAfter = 0 := by
  have hrec : Reconcile env w ns name = (w.log (.get ns name none), Result.empty, none) := by
    unfold Reconcile
    rw [storeGet_stored env w ns name o hfetch hobj hns hname]
    simp [hdel, hfin, dispatch, hstate, CREATED_STATE]
  rw [hrec]
  exact ⟨rfl, rfl, rfl, rfl, rfl, rfl⟩

/-- Witness for C7: a pass over the created `log-archive`. -/
theorem reconcile_created_noop_witness :
    ContainsFinalizer logArchiveCreated s3BucketFinalizer = true ∧
    logArchiveCreated.Status.State = CREATED_STATE ∧
    Reconcile noFault (worldOf logArchiveCreated) "default" "log-archive" =
      ((worldOf logArchiveCreated).log (.get "default" "log-archive" none),
        Result.empty, none) :=
  ⟨by decide, rfl,
    (reconcile_created_noop noFault (worldOf logArchiveCreated) "default" "log-archive"
      logArchiveCreated rfl rfl rfl rfl rfl (by decide) rfl).1⟩

/-- C8 (as amended). Metadata artifact naming: the config map that
`createBucketConfigMap` passes to `r.Create`, and that `deleteBucketConfigMap` looks
up, is named by the constant `configMapName = "%s-s3-cm"` applied to `s3bkt.Name`:
the name of the S3Bucket object itself (its `metadata.name`), not `Spec.Name` (the
name of the bucket), followed by the suffix `-s3-cm`.  The name does not depend on the
spec; the bucket name goes into the `BucketName` field.  For the object of the
scenarios, whose two names are both `log-archive`, it is `log-archive-s3-cm`; for the
object named `obj1` whose bucket is `log-archive` it is `obj1-s3-cm`. -/
theorem configMap_name (env : Env) (w : World) (s3bkt : S3Bucket) (out : Option String) :
    (∃ cm r, (createBucketConfigMap env w s3bkt out).1.trace = w.trace ++ [.cmCreate cm r] ∧
      cm.Name = s3bkt.Name ++ "-s3-cm" ∧ cm.Namespace = s3bkt.Namespace ∧
      cm.Data.lookup "BucketName" = some s3bkt.Spec.Name) ∧
    (∃ r rest, (deleteBucketConfigMap env w s3bkt).1.trace =
      w.trace ++ .cmGet s3bkt.Namespace (s3bkt.Name ++ "-s3-cm") r :: rest) ∧
    (∀ spec : S3BucketSpec,
      (bucketConfigMap { s3bkt with Spec := spec } out).Name =
        (bucketConfigMap s3bkt out).Name) ∧
    (bucketConfigMap logArchive out).Name = "log-archive-s3-cm" ∧
    (renamedArchive.Name = "obj1" ∧ renamedArchive.Spec.Name = "log-archive" ∧
      (bucketConfigMap renamedArchive out).Name = "obj1-s3-cm") := by
  refine ⟨?_, ?_, fun _ => rfl,
    (by decide : configMapName "log-archive" = "log-archive-s3-cm"),
    by decide, by decide, (by decide : configMapName "obj1" = "obj1-s3-cm")⟩
  · obtain ⟨ht, -⟩ := storeCmCreate_spec env w (bucketConfigMap s3bkt out)
    refine ⟨bucketConfigMap s3bkt out, (storeCmCreate env w (bucketConfigMap s3bkt out)).2,
      ?_, rfl, rfl, ?_⟩
    · unfold createBucketConfigMap
      rcases hc : storeCmCreate env w (bucketConfigMap s3bkt out) with ⟨w1, _ | e⟩ <;>
      · rw [hc] at ht
        exact ht
    · simp [bucketConfigMap, List.lookup]
  · obtain ⟨-, -, r, rest, ht, -⟩ := deleteBucketConfigMap_spec env w s3bkt
    exact ⟨r, rest, ht⟩

/-- Counterexample to C8 as stated.  For the object of the scenarios, whose own name
and bucket name are both `log-archive`, the published config map is not named
`log-archive-cm`: creation stores it, and cleanup looks it up, under
`log-archive-s3-cm`.  For the object named `obj1` whose bucket (`Spec.Name`) is
`log-archive`, the config map is named after the object, `obj1-s3-cm`, not after the
bucket. -/
theorem configMap_name_counterexample :
    ((bucketConfigMap logArchive (some "/log-archive")).Name ≠ "log-archive-cm" ∧
      (createBucketConfigMap noFault (worldOf logArchive) logArchive
        (some "/log-archive")).1.cms.map (fun c => c.Name) = ["log-archive-s3-cm"] ∧
      (deleteBucketConfigMap noFault (worldOf logArchive) logArchive).1.trace =
        [.cmGet "default" "log-archive-s3-cm" (some .notFound)]) ∧
    (renamedArchive.Spec.Name = "log-archive" ∧
      (createBucketConfigMap noFault (worldOf renamedArchive) renamedArchive
        (some "/log-archive")).1.cms.map (fun c => c.Name) = ["obj1-s3-cm"] ∧
      (bucketConfigMap renamedArchive (some "/log-archive")).Name ≠ "log-archive-cm" ∧
      (bucketConfigMap renamedArchive (some "/log-archive")).Name ≠ "log-archive-s3-cm" ∧
      (deleteBucketConfigMap noFault (worldOf renamedArchive) renamedArchive).1.trace =
        [.cmGet "default" "obj1-s3-cm" (some .notFound)]) := by
  decide

/-- The fetch reports an error exactly by logging it; nothing else changes. -/
theorem storeGet_error (env : Env) (w : World) (ns name : String) (e : Err)
    (h : (storeGet env w ns name).2 = .error e) :
    storeGet env w ns name = (w.log (.get ns name (some e)), .error e) := by
  rcases storeGet_spec env w ns name with ⟨e2, h2⟩ | ⟨o, _, _, _, _, h2⟩
  · rw [h2] at h
    simp only [Except.error.injEq] at h
    subst h
    exact h2
  · rw [h2] at h
    simp at h

/-- C11. Requeue policy for non-actionable states: for every fetched object that is
not deletion-requested and carries the finalizer, `Reconcile` returns no error and
makes no call after the fetch (no write, no external bucket call; the store is
unchanged), with `RequeueAfter` exactly 5 minutes (300000000000 ns) when
`status.state` is ERROR and exactly 30 seconds (30000000000 ns) when it is CREATING
or DELETING; `Requeue` is not set. -/
theorem reconcile_requeue_policy (env : Env) (w : World) (ns name : String)
    (o : S3Bucket) (hfetch : env.fault w.trace.length = none) (hobj : w.obj = some o)
    (hns : o.Namespace = ns) (hname : o.Name = name) (hdel : o.DeletionTimestamp = none)
    (hfin : ContainsFinalizer o s3BucketFinalizer = true) :
    (o.Status.State = ERROR_STATE →
      Reconcile env w ns name =
        (w.log (.get ns name none), { Requeue := false, RequeueAfter := 5 * Minute }, none)) ∧
    (o.Status.State = CREATING_STATE ∨ o.Status.State = DELETING_STATE →
      Reconcile env w ns name =
        (w.log (.get ns name none), { Requeue := false, RequeueAfter := 30 * Second }, none)) ∧
    5 * Minute = 300000000000 ∧ 30 * Second = 30000000000 ∧
    (w.log (.get ns name none)).obj = w.obj ∧ (w.log (.get ns name none)).cms = w.cms ∧
    (w.log (.get ns name none)).trace = w.trace ++ [.get ns name none] := by
  have hrec : Reconcile env w ns name = dispatch env (w.log (.get ns name none)) o := by
    unfold Reconcile
    rw [storeGet_stored env w ns name o hfetch hobj hns hname]
    simp [hdel, hfin]
  rw [hrec]
  refine ⟨?_, ?_, by decide, by decide, rfl, rfl, rfl⟩
  · intro hs
    unfold dispatch
    rw [hs]
    simp [ERROR_STATE, CREATED_STATE, Nat.mul_comm]
  · intro hs
    unfold dispatch
    rcases hs with hs | hs <;> rw [hs] <;>
      simp [ERROR_STATE, CREATED_STATE, CREATING_STATE, DELETING_STATE, Nat.mul_comm]

/-- Witness for C11: a pass over `log-archive` in state ERROR. -/
theorem reconcile_requeue_policy_witness :
    ContainsFinalizer { logArchiveCreated with Status := { State := ERROR_STATE } }
      s3BucketFinalizer = true ∧
    Reconcile noFault (worldOf { logArchiveCreated with Status := { State := ERROR_STATE } })
      "default" "log-archive" =
      ((worldOf { logArchiveCreated with Status := { State := ERROR_STATE } }).log
        (.get "default" "log-archive" none),
       { Requeue := false, RequeueAfter := 5 * Minute }, none) :=
  ⟨by decide,
    (reconcile_requeue_policy noFault
      (worldOf { logArchiveCreated with Status := { State := ERROR_STATE } })
      "default" "log-archive" { logArchiveCreated with Status := { State := ERROR_STATE } }
      rfl rfl rfl rfl rfl (by decide)).1 rfl⟩

/-- C14. Fetch errors are swallowed: whenever the initial fetch of `Reconcile` returns
an error `e`, whether the not-found of an absent object or any failure of the store,
`Reconcile` returns the empty result with a nil error, and the world after it is the
world before it with the failed fetch appended to the trace: no further collaborator
call is made and the error is not returned to the caller. -/
theorem reconcile_fetch_error_swallowed (env : Env) (w : World) (ns name : String) (e : Err)
    (h : (storeGet env w ns name).2 = .error e) :
    Reconcile env w ns name = (w.log (.get ns name (some e)), Result.empty, none) ∧
    (Reconcile env w ns name).1.trace = w.trace ++ [.get ns name (some e)] ∧
    (Reconcile env w ns name).1.obj = w.obj ∧
    (Reconcile env w ns name).1.cms = w.cms ∧
    (Reconcile env w ns name).2.2 = none := by
  have hrec : Reconcile env w ns name =
      (w.log (.get ns name (some e)), Result.empty, none) := by
    unfold Reconcile
    rw [storeGet_error env w ns name e h]
  rw [hrec]
  exact ⟨rfl, rfl, rfl, rfl, rfl⟩

/-- The fetch fails with every error the oracle injects. -/
theorem storeGet_fault (env : Env) (w : World) (ns name : String) (e : Err)
    (h : env.fault w.trace.length = some e) : (storeGet env w ns name).2 = .error e := by
  simp [storeGet, h]

/-- Witness for C14: the store times out on the fetch of the stored `log-archive`. -/
theorem reconcile_fetch_error_swallowed_witness :
    (worldOf logArchive).obj = some logArchive ∧
    Reconcile (faultAt 0 (.other "context deadline exceeded")) (worldOf logArchive)
      "default" "log-archive" =
      ((worldOf logArchive).log
        (.get "default" "log-archive" (some (.other "context deadline exceeded"))),
       Result.empty, none) :=
  ⟨rfl,
    (reconcile_fetch_error_swallowed (faultAt 0 (.other "context deadline exceeded"))
      (worldOf logArchive) "default" "log-archive" (.other "context deadline exceeded")
      (storeGet_fault _ _ _ _ _ rfl)).1⟩

/-! ## The status write, attempt by attempt -/

/-- What `r.Status().Update` stores: on success the stored object with the status of
the given one and the next version; on failure nothing. -/
theorem storeStatusUpdate_obj (env : Env) (w : World) (o : S3Bucket) :
    ((storeStatusUpdate env w o).2 = none →
      ∃ cur, w.obj = some cur ∧ (storeStatusUpdate env w o).1.obj =
        some { cur with Status := o.Status, ResourceVersion := cur.ResourceVersion + 1 }) ∧
    ((storeStatusUpdate env w o).2 ≠ none → (storeStatusUpdate env w o).1.obj = w.obj) := by
  unfold storeStatusUpdate
  cases hf : env.fault w.trace.length with
  | some e => simp
  | none =>
    cases ho : w.obj with
    | none => simp [ho]
    | some cur =>
      by_cases hk : cur.Namespace = o.Namespace ∧ cur.Name = o.Name
      · by_cases hv : cur.ResourceVersion = o.ResourceVersion
        · simp [hk, hv, World.log]
        · simp [hk, hv, ho]
      · simp [hk, ho]

/-- C12. Status write frame: `updateBucketStatus` is the retry loop over
`statusAttempt`, and it depends on the caller's copy only through its name and
namespace.  Each attempt, from any world, first fetches the object by that key.  When
the fetch fails nothing is written.  Otherwise the fetched object is the stored one,
and the object handed to `r.Status().Update` equals it in name, namespace, finalizers,
deletion marker, version token and spec, with `status.state` set to the requested
state; when the write succeeds the stored object agrees with the fetched one in name,
namespace, finalizers, deletion marker and spec and has the requested state. -/
theorem updateBucketStatus_status_frame (env : Env) (s3bkt : S3Bucket) (st : String) :
    (∀ w, updateBucketStatus env w s3bkt st =
      RetryOnConflict defaultBackoffSteps (statusAttempt env s3bkt st) (w.log (.setState st))) ∧
    (∀ w (other : S3Bucket), other.Name = s3bkt.Name → other.Namespace = s3bkt.Namespace →
      updateBucketStatus env w other st = updateBucketStatus env w s3bkt st) ∧
    (∀ w,
      (∃ e, statusAttempt env s3bkt st w =
        (w.log (.get s3bkt.Namespace s3bkt.Name (some e)), some e)) ∨
      (∃ latest written,
        w.obj = some latest ∧ latest.Namespace = s3bkt.Namespace ∧ latest.Name = s3bkt.Name ∧
        (statusAttempt env s3bkt st w).1.trace = w.trace ++
          [.get s3bkt.Namespace s3bkt.Name none,
           .statusUpdate written (statusAttempt env s3bkt st w).2] ∧
        written.Name = latest.Name ∧ written.Namespace = latest.Namespace ∧
        written.Finalizers = latest.Finalizers ∧
        written.DeletionTimestamp = latest.DeletionTimestamp ∧
        written.ResourceVersion = latest.ResourceVersion ∧
        written.Spec = latest.Spec ∧ written.Status.State = st ∧
        ((statusAttempt env s3bkt st w).2 = none →
          ∃ stored, (statusAttempt env s3bkt st w).1.obj = some stored ∧
            stored.Name = latest.Name ∧ stored.Namespace = latest.Namespace ∧
            stored.Finalizers = latest.Finalizers ∧
            stored.DeletionTimestamp = latest.DeletionTimestamp ∧
            stored.Spec = latest.Spec ∧ stored.Status.State = st) ∧
        ((statusAttempt env s3bkt st w).2 ≠ none →
          (statusAttempt env s3bkt st w).1.obj = w.obj))) := by
  refine ⟨fun w => rfl, ?_, ?_⟩
  · intro w other hn hns
    unfold updateBucketStatus
    have : statusAttempt env other st = statusAttempt env s3bkt st := by
      funext w0
      simp [statusAttempt, hn, hns]
    rw [this]
  · intro w
    rcases storeGet_spec env w s3bkt.Namespace s3bkt.Name with ⟨e, h⟩ | ⟨o, ho, hns, hn, -, h⟩
    · left
      exact ⟨e, by simp [statusAttempt, h]⟩
    · right
      have hsa : statusAttempt env s3bkt st w = storeStatusUpdate env
          (w.log (.get s3bkt.Namespace s3bkt.Name none))
          { o with Status := { o.Status with State := st } } := by
        simp [statusAttempt, h]
      refine ⟨o, { o with Status := { o.Status with State := st } }, ho, hns, hn, ?_,
        rfl, rfl, rfl, rfl, rfl, rfl, rfl, ?_, ?_⟩
      · rw [hsa]
        rw [(storeStatusUpdate_spec env _ _).1]
        simp
      · rw [hsa]
        intro hres
        obtain ⟨cur, hcur, hst⟩ := (storeStatusUpdate_obj env _ _).1 hres
        rw [log_obj, ho] at hcur
        cases hcur
        exact ⟨_, hst, rfl, rfl, rfl, rfl, rfl, rfl⟩
      · rw [hsa]
        intro hres
        exact (storeStatusUpdate_obj env _ _).2 hres

/-! ## Idempotence of the finalizer manager -/

/-- When the fetch and the update are not made to fail, `removeFinalizer` on a stored
object is one fetch and one accepted update of the object without the finalizer; the
store then holds that object, or nothing when the write released it. -/
theorem removeFinalizer_no_fault (env : Env) (w : World) (s3bkt o : S3Bucket)
    (h1 : env.fault w.trace.length = none) (h2 : env.fault (w.trace.length + 1) = none)
    (hobj : w.obj = some o)
    (hns : o.Namespace = s3bkt.Namespace) (hname : o.Name = s3bkt.Name) :
    removeFinalizer env w s3bkt =
      ({ w.log (.get s3bkt.Namespace s3bkt.Name none) with
          obj := (if (RemoveFinalizer o s3BucketFinalizer).isReleased then none else
            some { RemoveFinalizer o s3BucketFinalizer with
                     Status := o.Status,
                     ResourceVersion := o.ResourceVersion + 1 }) }.log
        (.update (RemoveFinalizer o s3BucketFinalizer) none), none) := by
  unfold removeFinalizer
  apply retry_first_success (removeAttempt env s3bkt) 3 w
  have hsa : removeAttempt env s3bkt w = storeUpdate env
      (w.log (.get s3bkt.Namespace s3bkt.Name none)) (RemoveFinalizer o s3BucketFinalizer) := by
    simp [removeAttempt, storeGet, h1, hobj, hns, hname]
  rw [hsa, storeUpdate_accepted env (w.log (.get s3bkt.Namespace s3bkt.Name none))
    (RemoveFinalizer o s3BucketFinalizer) o (by simpa using h2) hobj rfl rfl rfl]

/-- When the fetch is not made to fail, `addFinalizer` on a stored object that carries
the finalizer is one fetch and no write. -/
theorem addFinalizer_no_fault_present (env : Env) (w : World) (s3bkt o : S3Bucket)
    (h1 : env.fault w.trace.length = none) (hobj : w.obj = some o)
    (hns : o.Namespace = s3bkt.Namespace) (hname : o.Name = s3bkt.Name)
    (hfin : ContainsFinalizer o s3BucketFinalizer = true) :
    addFinalizer env w s3bkt = (w.log (.get s3bkt.Namespace s3bkt.Name none), none) := by
  unfold addFinalizer
  apply retry_first_success (addAttempt env s3bkt) 3 w
  simp [addAttempt, storeGet, h1, hobj, hns, hname, hfin]

/-- When the fetch and the update are not made to fail, `addFinalizer` on a stored
object that lacks the finalizer succeeds. -/
theorem addFinalizer_no_fault_absent (env : Env) (w : World) (s3bkt o : S3Bucket)
    (h1 : env.fault w.trace.length = none) (h2 : env.fault (w.trace.length + 1) = none)
    (hobj : w.obj = some o)
    (hns : o.Namespace = s3bkt.Namespace) (hname : o.Name = s3bkt.Name)
    (hfin : ContainsFinalizer o s3BucketFinalizer = false) :
    (addFinalizer env w s3bkt).2 = none := by
  unfold addFinalizer
  have ha := addAttempt_no_fault env s3bkt o w hobj hns hname hfin h1 h2
  rcases hat : addAttempt env s3bkt w with ⟨w2, r⟩
  rw [hat] at ha
  simp only at ha
  subst ha
  exact congrArg Prod.snd (retry_first_success (addAttempt env s3bkt) 3 _ _ hat)

/-- After a successful attempt of `addFinalizer` the object is stored under the key
and carries the finalizer. -/
theorem addAttempt_success_obj (env : Env) (s3bkt : S3Bucket) (w0 w1 : World)
    (h : addAttempt env s3bkt w0 = (w1, none)) :
    ∃ o1, w1.obj = some o1 ∧ o1.Namespace = s3bkt.Namespace ∧ o1.Name = s3bkt.Name ∧
      ContainsFinalizer o1 s3BucketFinalizer = true := by
  unfold addAttempt at h
  rcases storeGet_spec env w0 s3bkt.Namespace s3bkt.Name with ⟨e, hg⟩ | ⟨o, ho, hns, hn, _, hg⟩
  · rw [hg] at h; simp at h
  · rw [hg] at h
    simp only at h
    by_cases hc : ContainsFinalizer o s3BucketFinalizer = true
    · simp only [hc, Bool.not_true, Bool.false_eq_true, if_false] at h
      have hw : w1 = w0.log (.get s3bkt.Namespace s3bkt.Name none) := (Prod.mk.inj h).1.symm
      subst hw
      exact ⟨o, ho, hns, hn, hc⟩
    · simp only [hc, Bool.not_false, if_true] at h
      simp only [Bool.not_eq_true] at hc
      obtain ⟨-, -, -, hf⟩ := storeUpdate_spec env
        (w0.log (.get s3bkt.Namespace s3bkt.Name none)) (AddFinalizer o s3BucketFinalizer)
      rw [h] at hf
      obtain ⟨cur, -, -, -, -, hkeep⟩ := hf rfl
      have hst := hkeep (AddFinalizer_not_released o hc)
      simp only at hst
      refine ⟨_, hst, ?_, ?_, ?_⟩
      · rw [AddFinalizer_absent _ _ hc]; exact hns
      · rw [AddFinalizer_absent _ _ hc]; exact hn
      · rw [AddFinalizer_absent _ _ hc]; simp [ContainsFinalizer]

/-- After a successful attempt of `removeFinalizer` the store holds nothing, or holds
under the key an object without the finalizer that the store does not remove. -/
theorem removeAttempt_success_obj (env : Env) (s3bkt : S3Bucket) (w0 w1 : World)
    (h : removeAttempt env s3bkt w0 = (w1, none)) :
    w1.obj = none ∨
    ∃ o1, w1.obj = some o1 ∧ o1.Namespace = s3bkt.Namespace ∧ o1.Name = s3bkt.Name ∧
      s3BucketFinalizer ∉ o1.Finalizers ∧ o1.isReleased = false := by
  unfold removeAttempt at h
  rcases storeGet_spec env w0 s3bkt.Namespace s3bkt.Name with ⟨e, hg⟩ | ⟨o, ho, hns, hn, _, hg⟩
  · rw [hg] at h; simp at h
  · rw [hg] at h
    simp only at h
    obtain ⟨-, -, -, hf⟩ := storeUpdate_spec env
      (w0.log (.get s3bkt.Namespace s3bkt.Name none)) (RemoveFinalizer o s3BucketFinalizer)
    rw [h] at hf
    obtain ⟨cur, -, -, -, hrel, hkeep⟩ := hf rfl
    cases hr : (RemoveFinalizer o s3BucketFinalizer).isReleased with
    | true => exact Or.inl (hrel hr)
    | false =>
      refine Or.inr ⟨_, hkeep hr, hns, hn, by simp [RemoveFinalizer], ?_⟩
      simpa [S3Bucket.isReleased] using hr

/-- Removing the finalizer from an object without it changes nothing. -/
theorem RemoveFinalizer_absent (o : S3Bucket) (h : s3BucketFinalizer ∉ o.Finalizers) :
    RemoveFinalizer o s3BucketFinalizer = o := by
  cases o
  simp only [RemoveFinalizer, S3Bucket.mk.injEq, true_and, and_true]
  rw [List.filter_eq_self]
  intro a ha
  simp only [bne_iff_ne, ne_eq]
  rintro rfl
  exact h ha

/-- A first attempt that fails with an error other than a conflict ends the loop. -/
theorem retry_first_failure (fn : World → World × Option Err) (n : Nat) (w w1 : World)
    (e : Err) (h : fn w = (w1, some e)) (hc : e.isConflict = false) :
    RetryOnConflict (n + 1) fn w = (w1, some e) := by
  cases n with
  | zero => simpa [RetryOnConflict] using h
  | succ m =>
    rw [RetryOnConflict]
    · simp [h, hc]
    · simp

/-- Which objects the store removes when `removeFinalizer` is accepted: the
deletion-requested ones with no finalizer but this one. -/
theorem RemoveFinalizer_released (o : S3Bucket) :
    (RemoveFinalizer o s3BucketFinalizer).isReleased = true ↔
      o.DeletionTimestamp.isSome = true ∧ ∀ x ∈ o.Finalizers, x = s3BucketFinalizer := by
  simp [RemoveFinalizer, S3Bucket.isReleased, List.filter_eq_nil_iff]

/-- C13 (as amended). Finalizer manager idempotence.  After a first `addFinalizer` that
succeeded the stored object carries the finalizer, and a second call whose fetch is
not made to fail succeeds and leaves the world of the first call with a single fetch
appended to the trace: same finalizer set, no write.  After a first `removeFinalizer`
that succeeded: when the object is still stored, it lacks the finalizer, and a second
call whose fetch and update are not made to fail succeeds although the token is
already gone: it fetches the stored object and writes it back as it is, and the stored
object keeps its name, namespace, finalizer set, deletion marker, spec and status,
with the config maps unchanged; when the store has removed the object, a second call
whose fetch is not made to fail returns the not-found error of that fetch.  On every
stored object both first calls succeed when their fetch and update are not made to
fail, and the store removes the object after `removeFinalizer` exactly when it is
deletion-requested and has no finalizer but this one. -/
theorem finalizer_manager_idempotent (env : Env) (w : World) (s3bkt : S3Bucket) :
    ((addFinalizer env w s3bkt).2 = none →
      env.fault (addFinalizer env w s3bkt).1.trace.length = none →
      (∃ l, (addFinalizer env w s3bkt).1.finalizers = some l ∧ s3BucketFinalizer ∈ l) ∧
      addFinalizer env (addFinalizer env w s3bkt).1 s3bkt =
        ((addFinalizer env w s3bkt).1.log (.get s3bkt.Namespace s3bkt.Name none), none) ∧
      (addFinalizer env (addFinalizer env w s3bkt).1 s3bkt).1.finalizers =
        (addFinalizer env w s3bkt).1.finalizers) ∧
    ((removeFinalizer env w s3bkt).2 = none →
      ∀ o1, (removeFinalizer env w s3bkt).1.obj = some o1 →
      env.fault (removeFinalizer env w s3bkt).1.trace.length = none →
      env.fault ((removeFinalizer env w s3bkt).1.trace.length + 1) = none →
      s3BucketFinalizer ∉ o1.Finalizers ∧
      (removeFinalizer env (removeFinalizer env w s3bkt).1 s3bkt).2 = none ∧
      (removeFinalizer env (removeFinalizer env w s3bkt).1 s3bkt).1.finalizers =
        (removeFinalizer env w s3bkt).1.finalizers ∧
      (removeFinalizer env (removeFinalizer env w s3bkt).1 s3bkt).1.cms =
        (removeFinalizer env w s3bkt).1.cms ∧
      (removeFinalizer env (removeFinalizer env w s3bkt).1 s3bkt).1.trace =
        (removeFinalizer env w s3bkt).1.trace ++
          [.get s3bkt.Namespace s3bkt.Name none, .update o1 none] ∧
      ∃ o2, (removeFinalizer env (removeFinalizer env w s3bkt).1 s3bkt).1.obj = some o2 ∧
        o2.Name = o1.Name ∧ o2.Namespace = o1.Namespace ∧ o2.Finalizers = o1.Finalizers ∧
        o2.DeletionTimestamp = o1.DeletionTimestamp ∧ o2.Spec = o1.Spec ∧
        o2.Status = o1.Status ∧ o2.ResourceVersion = o1.ResourceVersion + 1) ∧
    ((removeFinalizer env w s3bkt).2 = none →
      (removeFinalizer env w s3bkt).1.obj = none →
      env.fault (removeFinalizer env w s3bkt).1.trace.length = none →
      removeFinalizer env (removeFinalizer env w s3bkt).1 s3bkt =
        ((removeFinalizer env w s3bkt).1.log
          (.get s3bkt.Namespace s3bkt.Name (some .notFound)), some .notFound)) ∧
    (∀ o, w.obj = some o → o.Namespace = s3bkt.Namespace → o.Name = s3bkt.Name →
      env.fault w.trace.length = none → env.fault (w.trace.length + 1) = none →
      (addFinalizer env w s3bkt).2 = none ∧ (removeFinalizer env w s3bkt).2 = none ∧
      ((removeFinalizer env w s3bkt).1.obj = none ↔
        (o.DeletionTimestamp.isSome = true ∧ ∀ x ∈ o.Finalizers, x = s3BucketFinalizer))) := by
  refine ⟨?_, ?_, ?_, ?_⟩
  · intro hres hf
    obtain ⟨w0, hw0⟩ := retry_success (addAttempt env s3bkt) 3 w hres
    obtain ⟨o1, ho1, hns1, hn1, hc1⟩ := addAttempt_success_obj env s3bkt w0 _ hw0
    change (addFinalizer env w s3bkt).1.obj = some o1 at ho1
    have h2 := addFinalizer_no_fault_present env (addFinalizer env w s3bkt).1 s3bkt o1
      hf ho1 hns1 hn1 hc1
    refine ⟨⟨o1.Finalizers, by simp [World.finalizers, ho1], ?_⟩, h2, by rw [h2]; rfl⟩
    simpa [ContainsFinalizer] using hc1
  · intro hres o1 ho1 hf1 hf2
    obtain ⟨w0, hw0⟩ := retry_success (removeAttempt env s3bkt) 3 w hres
    change removeAttempt env s3bkt w0 = ((removeFinalizer env w s3bkt).1, none) at hw0
    rcases removeAttempt_success_obj env s3bkt w0 _ hw0 with hnone | ⟨o, ho, hns1, hn1, hc1, hr1⟩
    · rw [hnone] at ho1; cases ho1
    · rw [ho] at ho1
      cases ho1
      have h2 := removeFinalizer_no_fault env (removeFinalizer env w s3bkt).1 s3bkt o1
        hf1 hf2 ho hns1 hn1
      rw [RemoveFinalizer_absent o1 hc1, hr1] at h2
      rw [h2]
      refine ⟨hc1, rfl, ?_, rfl, ?_, _, rfl, rfl, rfl, rfl, rfl, rfl, rfl, rfl⟩
      · simp [World.finalizers, World.log, ho]
      · simp [World.log]
  · intro hres hnone hf
    unfold removeFinalizer at hnone hf ⊢
    apply retry_first_failure (removeAttempt env s3bkt) 3 _
    · simp [removeAttempt, storeGet, hf, hnone]
    · rfl
  · intro o hobj hns hname hf1 hf2
    refine ⟨?_, ?_, ?_⟩
    · by_cases hfin : ContainsFinalizer o s3BucketFinalizer = true
      · rw [addFinalizer_no_fault_present env w s3bkt o hf1 hobj hns hname hfin]
      · simp only [Bool.not_eq_true] at hfin
        exact addFinalizer_no_fault_absent env w s3bkt o hf1 hf2 hobj hns hname hfin
    · rw [removeFinalizer_no_fault env w s3bkt o hf1 hf2 hobj hns hname]
    · rw [removeFinalizer_no_fault env w s3bkt o hf1 hf2 hobj hns hname,
        ← RemoveFinalizer_released o]
      cases hr : (RemoveFinalizer o s3BucketFinalizer).isReleased <;> simp [World.log]

/-- Witness for C13: a store that does not fail; `log-archive` without the finalizer
for `addFinalizer`, and the created `log-archive`, which carries the finalizer and is
not deletion-requested, for `removeFinalizer`. -/
theorem finalizer_manager_idempotent_witness :
    (addFinalizer noFault (worldOf logArchive) logArchive).2 = none ∧
    (addFinalizer noFault (addFinalizer noFault (worldOf logArchive) logArchive).1
      logArchive).2 = none ∧
    ContainsFinalizer logArchiveCreated s3BucketFinalizer = true ∧
    (removeFinalizer noFault (worldOf logArchiveCreated) logArchiveCreated).2 = none ∧
    (removeFinalizer noFault
      (removeFinalizer noFault (worldOf logArchiveCreated) logArchiveCreated).1
      logArchiveCreated).2 = none :=
  ⟨by decide,
    congrArg Prod.snd
      ((finalizer_manager_idempotent noFault (worldOf logArchive) logArchive).1
        (by decide) rfl).2.1,
    by decide, by decide,
    ((finalizer_manager_idempotent noFault (worldOf logArchiveCreated) logArchiveCreated).2.1
      (by decide)
      { logArchiveCreated with Finalizers := [], ResourceVersion := 5 }
      (by decide) rfl rfl).2.1⟩

/-- Counterexample to C13 as stated, at three stored objects.  The deletion-requested
`log-archive`, whose only finalizer is this one: the first `removeFinalizer` succeeds
and the store removes the object, so the second returns not-found.  `log-archive`
without the finalizer, when the fetch of the second call fails: the first
`addFinalizer` succeeds and the second returns the error.  The created `log-archive`,
not deletion-requested: both `removeFinalizer` calls succeed, but the second is an
accepted write, so the stored object after it differs from the one after the first
in its version token. -/
theorem finalizer_manager_idempotent_counterexample :
    ((removeFinalizer noFault (worldOf logArchiveDeleting) logArchiveDeleting).2 = none ∧
      (removeFinalizer noFault (worldOf logArchiveDeleting) logArchiveDeleting).1.obj = none ∧
      (removeFinalizer noFault
        (removeFinalizer noFault (worldOf logArchiveDeleting) logArchiveDeleting).1
        logArchiveDeleting).2 = some .notFound) ∧
    ((addFinalizer (faultAt 2 (.other "etcd unavailable")) (worldOf logArchive)
        logArchive).2 = none ∧
      (addFinalizer (faultAt 2 (.other "etcd unavailable"))
        (addFinalizer (faultAt 2 (.other "etcd unavailable")) (worldOf logArchive)
          logArchive).1 logArchive).2 = some (.other "etcd unavailable")) ∧
    ((removeFinalizer noFault
        (removeFinalizer noFault (worldOf logArchiveCreated) logArchiveCreated).1
        logArchiveCreated).2 = none ∧
      (removeFinalizer noFault
        (removeFinalizer noFault (worldOf logArchiveCreated) logArchiveCreated).1
        logArchiveCreated).1.obj ≠
      (removeFinalizer noFault (worldOf logArchiveCreated) logArchiveCreated).1.obj) := by
  decide

end S3Operator
